import Mathlib

/-!
Verification of the global-maps core of the `xmlschema` package
(`xmlschema/namespaces.py`): registration of schema documents, loading of
raw global declarations, redefinition handling, the lazy build-on-lookup
protocol, the build orchestrator, and the namespace-filtered view.

The Python module is shallowly embedded: dictionaries become
insertion-ordered association lists, the dynamically typed table slots
(component / `(elem, schema)` tuple / fan-out list) become an explicit
`Slot` inductive, exceptions become `Except` results that also carry the
table or state as mutated up to the raise point, and the externally
supplied construction functions become function-typed parameters.
Helper functions imported from sibling modules that are not part of the
source under verification (`qnames`, `utils`, `components`) are modelled
from the spec and are marked as such in their doc comments.
-/


/-- An XML element as this module sees it: its tag, the value of its
`name` attribute (`get_xsd_attribute(elem, 'name')`), and an opaque
payload standing for the rest of its content, so that two otherwise
identical declarations can be distinguished. -/
structure Elem where
  tag : String
  nm : String
  content : Nat
deriving DecidableEq, Repr

/-- Modelled from the spec: a top-level child of a schema document's root,
as the loader distinguishes them — either a direct declaration element or
a `redefine` block with its child declarations
(`iterchildren_xsd_redefine` / `iterchildren_by_tag` live in the external
`components` module). -/
inductive RootChild where
  | decl (e : Elem)
  | redefine (children : List Elem)
deriving DecidableEq, Repr

/-- A schema document as this module sees it: an identity (standing for
Python object identity), an optional resource URI, a target namespace and
the top-level children of its root element.  The mutable `errors` list
lives in the `XsdGlobals` state, keyed by `sid`, mirroring shared mutable
Python objects. -/
structure Schema where
  sid : Nat
  uri : Option String
  targetNamespace : String
  root : List RootChild
deriving DecidableEq, Repr

/-- Modelled from the spec: the scalar attributes of a built XSD component
that this module reads — its class (for `isinstance` tests), its class's
`FACTORY_KWARG`, the `built` flag, its qualified `name`, the source
element and owning schema back-references, the substitution-group
reference, its target namespace and in-scope namespace map.  The concrete
component classes live in the external `components` module. -/
structure CompCore where
  cls : String
  factoryKwarg : String
  built : Bool
  nm : String
  elem : Elem
  schema : Option Schema
  substitutionGroup : Option String
  targetNamespace : String
  nsmap : List (String × String)
deriving DecidableEq, Repr

/-- Modelled from the spec: one entry of a model group's content — either
a still-raw `(element, schema)` pair or an already-built sub-component
(sub-components are modelled one level deep; nested groups are flattened
into the item list). -/
inductive GItem where
  | pair (e : Elem) (s : Schema)
  | comp (c : CompCore)
deriving DecidableEq, Repr

/-- A built XSD component: its scalar attributes plus its embedded model
group content (see `GItem`). -/
structure Component where
  core : CompCore
  items : List GItem
deriving DecidableEq, Repr

/-- One item of a fan-out list stored in a global table slot: in Python
the list holds either `(elem, schema)` tuples or component instances. -/
inductive Item where
  | pair (e : Elem) (s : Schema)
  | comp (c : Component)
deriving DecidableEq, Repr

/-- A value stored in a global table: a component instance, a raw
`(elem, schema)` tuple, or a fan-out list. -/
inductive Slot where
  | comp (c : Component)
  | pair (e : Elem) (s : Schema)
  | list (l : List Item)
deriving DecidableEq, Repr

/-- Qualified names are strings in the canonical `\x7buri\x7dlocal` or bare
`local` form. -/
abbrev QName := String

/-- A global table: a qualified-name-keyed Python dict, embedded as an
insertion-ordered association list. -/
abbrev Table := List (QName × Slot)

/-- Dict assignment `d[k] = v`: replace the value at an existing key in
place, otherwise append the new binding at the end (insertion order). -/
def tset [DecidableEq κ] (t : List (κ × α)) (k : κ) (v : α) : List (κ × α) :=
  match t with
  | [] => [(k, v)]
  | (k', v') :: rest => if k' = k then (k, v) :: rest else (k', v') :: tset rest k v

/-- Modelled from the spec (`qnames.get_qname`): compose a qualified name
from a namespace URI and a local name; an empty URI yields the bare local
name. -/
def get_qname (uri nm : String) : String :=
  if uri = "" then nm else "\x7b" ++ uri ++ "\x7d" ++ nm

/-- Modelled from the spec (`utils.get_namespace`): the namespace URI of a
qualified name — the text between a leading brace and the first closing
brace, or empty when the name is not in `\x7buri\x7dlocal` form.  (String
helpers are written over the character list so they compute by structural
reduction.) -/
def get_namespace (q : String) : String :=
  match q.data with
  | '\x7b' :: rest =>
    if rest.contains '\x7d' then String.mk (rest.takeWhile (· ≠ '\x7d')) else ""
  | _ => ""

/-- Modelled from the spec (`qnames.local_name`): the local part of a
qualified name — the text after the first closing brace when the name is
in `\x7buri\x7dlocal` form, otherwise the name itself. -/
def local_name (q : String) : String :=
  match q.data with
  | '\x7b' :: rest =>
    if rest.contains '\x7d' then String.mk ((rest.dropWhile (· ≠ '\x7d')).drop 1) else q
  | _ => q

/-- Modelled from the spec (`components.iterchildren_by_tag`): the
children of an element list having a given tag, in document order. -/
def iterchildren_by_tag (t : String) (es : List Elem) : List Elem :=
  es.filter (fun e => e.tag = t)

/-- The direct top-level declarations of a schema matching the category
tag, in document order (`filter_function(schema.root)`). -/
def schemaDecls (t : String) (s : Schema) : List Elem :=
  iterchildren_by_tag t (s.root.filterMap (fun c =>
    match c with
    | .decl e => some e
    | .redefine _ => none))

/-- The children of the schema's `redefine` blocks matching the category
tag, in document order (`iterchildren_xsd_redefine` then
`filter_function(elem)`). -/
def schemaRedefs (t : String) (s : Schema) : List Elem :=
  (s.root.filterMap (fun c =>
    match c with
    | .decl _ => none
    | .redefine cs => some cs)).flatMap (iterchildren_by_tag t)

/-- A load-phase error: `XMLSchemaParseError("not a redefinition!", obj[0])`,
recorded with the qualified name being redefined and the offending
element. -/
inductive LoadErr where
  | notARedefinition (q : QName) (e : Elem)
deriving DecidableEq, Repr

/-- The slot-accumulation step shared by pass 2 and the redefinition pass:
`try: d[q].append(p) / except KeyError: d[q] = p / except AttributeError:
d[q] = [d[q], p]`.  A missing key stores the raw pair; a tuple or a
component (no `append` attribute) is wrapped into a two-item fan-out list;
a list is appended to. -/
def slotAppend (tbl : Table) (q : QName) (e : Elem) (s : Schema) : Table :=
  match List.lookup q tbl with
  | none => tset tbl q (.pair e s)
  | some (.pair e' s') => tset tbl q (.list [.pair e' s', .pair e s])
  | some (.comp c) => tset tbl q (.list [.comp c, .pair e s])
  | some (.list l) => tset tbl q (.list (l ++ [.pair e s]))

/-- The redefinition pass: each pending `(qname, (child, schema))` entry
must find its target name already present (else
`XMLSchemaParseError("not a redefinition!")`, the table as mutated so far
being carried alongside the error), and is then accumulated onto the
slot with the shared `try append` step. -/
def applyRedefs (tbl : Table) : List (QName × Elem × Schema) → Except (LoadErr × Table) Table
  | [] => .ok tbl
  | (q, e, s) :: rest =>
    if (List.lookup q tbl).isSome then applyRedefs (slotAppend tbl q e s) rest
    else .error (.notARedefinition q e, tbl)

/-- One category's load run (`load_xsd_globals` produced by
`create_load_function`): per schema, the `redefine`-block children are
collected as pending redefinitions while the direct top-level declarations
are accumulated into the table, each under
`get_qname(target_namespace, name)`; after all schemas are scanned the
pending redefinitions are applied. -/
def load_xsd_globals (t : String) (tbl₀ : Table) (schemas : List Schema) :
    Except (LoadErr × Table) Table :=
  let step := fun (acc : Table × List (QName × Elem × Schema)) (s : Schema) =>
    let redefs := acc.2 ++ (schemaRedefs t s).map
      (fun c => (get_qname s.targetNamespace c.nm, c, s))
    let tbl := (schemaDecls t s).foldl
      (fun a e => slotAppend a (get_qname s.targetNamespace e.nm) e s) acc.1
    (tbl, redefs)
  let scanned := schemas.foldl step (tbl₀, [])
  applyRedefs scanned.1 scanned.2

/-- Modelled from the spec: what the resolver reads off an accepted
component class — its name (for `isinstance` tests against the `cls`
field), its `XSD_GLOBAL_TAG` and its `FACTORY_KWARG`. -/
structure ClassInfo where
  cname : String
  globalTag : String
  kwarg : String
deriving DecidableEq, Repr

/-- The `xsd_classes` parameter of `create_lookup_function`: a single
component class or a tuple of them. -/
inductive XsdClasses where
  | single (c : ClassInfo)
  | multi (cs : List ClassInfo)
deriving DecidableEq, Repr

/-- `isinstance(obj, xsd_classes)`, via the component's class name. -/
def isInstance (c : Component) (xc : XsdClasses) : Bool :=
  match xc with
  | .single i => c.core.cls = i.cname
  | .multi cs => cs.any (fun i => c.core.cls = i.cname)

/-- An externally supplied construction function, invoked as
`factory(elem, schema, prior, is_global=True, **kwargs)`; the prior
version is absent in the raw-pair branch. -/
abbrev FactoryFn := Elem → Option Schema → Option Component → Component

/-- The keyword-argument bundle from which the resolver selects
construction functions (`kwargs[...]`). -/
abbrev Kwargs := String → Option FactoryFn

/-- A resolver error: a missing name (`XMLSchemaKeyError`), a slot shape
not matching the requested category (`XMLSchemaTypeError`), no accepted
class matching the element's tag (`XMLSchemaValueError` "Element not
compatible!"), a missing factory keyword argument (Python `KeyError` from
`kwargs[...]`), a Python `AttributeError` from attribute access on a
non-element (the misdispatched two-item-list branch), or a Python
`TypeError` from unpacking a component as a pair inside a chain. -/
inductive LookupErr where
  | keyLookup
  | typeMismatch
  | notCompatible
  | keyError
  | attributeError
  | unpackError
deriving DecidableEq, Repr

/-- Factory selection for a raw element: with a tuple of classes the
element's tag is matched against each class's `XSD_GLOBAL_TAG` (else
"Element not compatible!"); with a single class its `FACTORY_KWARG` is
used unconditionally. -/
def selectKwarg (xc : XsdClasses) (e : Elem) : Except LookupErr String :=
  match xc with
  | .single i => .ok i.kwarg
  | .multi cs =>
    match cs.find? (fun i => e.tag = i.globalTag) with
    | some i => .ok i.kwarg
    | none => .error .notCompatible

/-- The redefinition-chain fold of the resolver: starting from the built
head, the remaining `(elem, schema)` pairs are folded in order, each
construction call receiving the immediately preceding result; after each
step the list's head is overwritten with the partial result, so an error
leaves the slot as a fan-out list headed by the last built version.
Unpacking a component item as a pair raises a Python `TypeError`. -/
def chainFold (xc : XsdClasses) (kw : Kwargs) (inst : Component)
    (acc : List Item) (tr : List (String × Elem)) :
    List Item → Except (LookupErr × Slot) (Component × List (String × Elem))
  | [] => .ok (inst, tr.reverse)
  | .pair e s :: rest =>
    match selectKwarg xc e with
    | .error err => .error (err, .list (.comp inst :: (acc.reverse ++ (Item.pair e s :: rest))))
    | .ok kwname =>
      match kw kwname with
      | none => .error (.keyError, .list (.comp inst :: (acc.reverse ++ (Item.pair e s :: rest))))
      | some f =>
        chainFold xc kw (f e (some s) (some inst)) (.pair e s :: acc) ((kwname, e) :: tr) rest
  | .comp c :: rest =>
    .error (.unpackError, .list (.comp inst :: (acc.reverse ++ (Item.comp c :: rest))))

/-- The slot-level core of a category lookup, covering the resolver's
branches in source order: a component instance of an accepted class is
returned unchanged when built, else re-constructed with itself as the
prior version; a fan-out list headed by an accepted-class instance is
folded as a redefinition chain; a raw `(elem, schema)` tuple is
constructed as a global declaration; a two-item list reaching the
tuple branch binds its first item — a raw pair (a component head was
taken by the chain branch) — to `elem`, and the following attribute
access on it (`elem.tag` under tuple dispatch, or the source-element
access inside the external factory under single-class dispatch) raises
`AttributeError`; every other shape is a type mismatch
(`XMLSchemaTypeError`).  Returns the component to hand out, the slot to
store back, and the trace of factory invocations; an error carries the
slot as mutated up to the raise point. -/
def slotResolveT (xc : XsdClasses) (kw : Kwargs) :
    Slot → Except (LookupErr × Slot) (Component × Slot × List (String × Elem))
  | .comp c =>
    if isInstance c xc then
      if c.core.built then .ok (c, .comp c, [])
      else
        match kw c.core.factoryKwarg with
        | none => .error (.keyError, .comp c)
        | some f =>
          let c2 := f c.core.elem c.core.schema (some c)
          .ok (c2, .comp c2, [(c.core.factoryKwarg, c.core.elem)])
    else .error (.typeMismatch, .comp c)
  | .list (.comp c :: rest) =>
    if isInstance c xc then
      match chainFold xc kw c [] [] rest with
      | .error es => .error es
      | .ok (inst, tr) => .ok (inst, .comp inst, tr)
    else
      if (Item.comp c :: rest).length = 2 then .error (.attributeError, .list (.comp c :: rest))
      else .error (.typeMismatch, .list (.comp c :: rest))
  | .list l =>
    if l.length = 2 then .error (.attributeError, .list l)
    else .error (.typeMismatch, .list l)
  | .pair e s =>
    match selectKwarg xc e with
    | .error err => .error (err, .pair e s)
    | .ok kwname =>
      match kw kwname with
      | none => .error (.keyError, .pair e s)
      | some f =>
        let c := f e (some s) none
        .ok (c, .comp c, [(kwname, e)])

/-- A category lookup (`lookup` produced by `create_lookup_function`): a
missing name fails with `XMLSchemaKeyError`; otherwise the slot is
resolved and the result stored back under the name.  Returns the
component together with the updated table and the trace of factory
invocations; an error carries the table as mutated up to the raise
point. -/
def lookup (xc : XsdClasses) (kw : Kwargs) (tbl : Table) (q : QName) :
    Except (LookupErr × Table) (Component × Table × List (String × Elem)) :=
  match List.lookup q tbl with
  | none => .error (.keyLookup, tbl)
  | some slot =>
    match slotResolveT xc kw slot with
    | .error (e, slot') => .error (e, tset tbl q slot')
    | .ok (c, slot', tr) => .ok (c, tset tbl q slot', tr)

/-- Modelled from the spec (`qnames` constants): the XSD meta-namespace
URI. -/
def XSD_NAMESPACE_PATH : String := "http://www.w3.org/2001/XMLSchema"

/-- The `xs:simpleType` global tag. -/
def XSD_SIMPLE_TYPE_TAG : String := get_qname XSD_NAMESPACE_PATH "simpleType"

/-- The `xs:complexType` global tag. -/
def XSD_COMPLEX_TYPE_TAG : String := get_qname XSD_NAMESPACE_PATH "complexType"

/-- The `xs:attribute` global tag. -/
def XSD_ATTRIBUTE_TAG : String := get_qname XSD_NAMESPACE_PATH "attribute"

/-- The `xs:attributeGroup` global tag. -/
def XSD_ATTRIBUTE_GROUP_TAG : String := get_qname XSD_NAMESPACE_PATH "attributeGroup"

/-- The `xs:group` global tag. -/
def XSD_GROUP_TAG : String := get_qname XSD_NAMESPACE_PATH "group"

/-- The `xs:element` global tag. -/
def XSD_ELEMENT_TAG : String := get_qname XSD_NAMESPACE_PATH "element"

/-- The `xs:notation` global tag. -/
def XSD_NOTATION_TAG : String := get_qname XSD_NAMESPACE_PATH "notation"

/-- The `xs:anyType` qualified name. -/
def XSD_ANY_TYPE : String := get_qname XSD_NAMESPACE_PATH "anyType"

/-- The `xs:anySimpleType` qualified name. -/
def XSD_ANY_SIMPLE_TYPE : String := get_qname XSD_NAMESPACE_PATH "anySimpleType"

/-- The `xs:anyAtomicType` qualified name. -/
def XSD_ANY_ATOMIC_TYPE : String := get_qname XSD_NAMESPACE_PATH "anyAtomicType"

/-- Modelled from the spec: the `XsdSimpleType` class data. -/
def XsdSimpleTypeCI : ClassInfo := ⟨"XsdSimpleType", XSD_SIMPLE_TYPE_TAG, "simple_type_factory"⟩

/-- Modelled from the spec: the `XsdComplexType` class data. -/
def XsdComplexTypeCI : ClassInfo :=
  ⟨"XsdComplexType", XSD_COMPLEX_TYPE_TAG, "complex_type_factory"⟩

/-- Modelled from the spec: the `XsdAttribute` class data. -/
def XsdAttributeCI : ClassInfo := ⟨"XsdAttribute", XSD_ATTRIBUTE_TAG, "attribute_factory"⟩

/-- Modelled from the spec: the `XsdAttributeGroup` class data. -/
def XsdAttributeGroupCI : ClassInfo :=
  ⟨"XsdAttributeGroup", XSD_ATTRIBUTE_GROUP_TAG, "attribute_group_factory"⟩

/-- Modelled from the spec: the `XsdGroup` class data. -/
def XsdGroupCI : ClassInfo := ⟨"XsdGroup", XSD_GROUP_TAG, "group_factory"⟩

/-- Modelled from the spec: the `XsdNotationCls` class data. -/
def XsdNotationCI : ClassInfo := ⟨"XsdNotationCls", XSD_NOTATION_TAG, "notation_factory"⟩

/-- Modelled from the spec: the `XsdElement` class data. -/
def XsdElementCI : ClassInfo := ⟨"XsdElement", XSD_ELEMENT_TAG, "element_factory"⟩

/-- The mediator state of `XsdGlobals`: the two registries, the six
global tables, the substitution-group and base-elements tables, the
validation mode, and the per-schema mutable `errors` lists keyed by
schema identity (Python stores them on the shared schema objects). -/
structure XsdGlobals where
  validation : String
  namespaces : List (String × List Schema)
  resources : List (String × Schema)
  types : Table
  attributes : Table
  attribute_groups : Table
  groups : Table
  notations : Table
  elements : Table
  substitution_groups : List (QName × List Component)
  base_elements : Table
  errs : List (Nat × List Nat)
deriving DecidableEq, Repr

/-- The `global_maps` tuple, in its source order. -/
def XsdGlobals.global_maps (g : XsdGlobals) : List Table :=
  [g.notations, g.types, g.attributes, g.attribute_groups, g.groups, g.elements]

/-- `iter_schemas`: every registered schema, per namespace group in
registry order. -/
def XsdGlobals.iter_schemas (g : XsdGlobals) : List Schema :=
  (g.namespaces.map Prod.snd).flatten

/-- A freshly constructed `XsdGlobals`. -/
def initGlobals (validation : String) : XsdGlobals :=
  ⟨validation, [], [], [], [], [], [], [], [], [], [], []⟩

/-- The `errors` list of a schema, read from the shared state. -/
def schemaErrors (g : XsdGlobals) (s : Schema) : List Nat :=
  (List.lookup s.sid g.errs).getD []

/-- `XsdGlobals.register`: a schema with a truthy resource URI is recorded
under it unless that URI is already bound — to a different schema, in
which case the call returns at once; the schema is then appended to its
target-namespace group unless it is already a member or a schema with the
same URI already occupies the group. -/
def register (g : XsdGlobals) (s : Schema) : XsdGlobals :=
  let step : XsdGlobals × Bool :=
    match s.uri with
    | some u =>
      if u ≠ "" then
        match List.lookup u g.resources with
        | none => ({g with resources := tset g.resources u s}, false)
        | some s' => (g, s' ≠ s)
      else (g, false)
    | none => (g, false)
  if step.2 then step.1 else
  let g₁ := step.1
  match List.lookup s.targetNamespace g₁.namespaces with
  | none => {g₁ with namespaces := tset g₁.namespaces s.targetNamespace [s]}
  | some ns_schemas =>
    if s ∈ ns_schemas then g₁
    else if ns_schemas.any (fun o => s.uri = o.uri) then g₁
    else {g₁ with namespaces := tset g₁.namespaces s.targetNamespace (ns_schemas ++ [s])}

/-- `XsdGlobals.clear`: empties the six global tables, the base-elements
and substitution-group tables, resets every registered schema's `errors`
list, and — only when `remove_schemas` is set — replaces the namespace
and resource registries by fresh empty ones. -/
def clear (g : XsdGlobals) (remove_schemas : Bool) : XsdGlobals :=
  let g' := {g with notations := [], types := [], attributes := [], attribute_groups := [],
                    groups := [], elements := [], base_elements := [],
                    substitution_groups := [],
                    errs := (XsdGlobals.iter_schemas g).foldl
                      (fun a s => tset a s.sid []) g.errs}
  if remove_schemas then {g' with namespaces := [], resources := []} else g'

/-- The keyword-argument bundle `build` copies from
`self.validator.OPTIONS`, together with the other external collaborators
`build` consults: the construction functions, the validator's
`BUILTIN_TYPES` table, the meta-schema's per-schema validation errors
(lax mode), and the per-schema outcome of the final `schema.check()`. -/
structure Opts where
  factories : Kwargs
  BUILTIN_TYPES : List (QName × Component)
  META_SCHEMA_errors : Schema → List Nat
  check_fails : Schema → Bool

/-- A build-phase error: the two precondition `XMLSchemaValueError`s, the
`IndexError` of an empty meta-namespace group, the `KeyError` of a
missing anchor type, `AttributeError`/`TypeError` from non-component
slots, a propagated loader or resolver error, and a failed final
check. -/
inductive BuildErr where
  | notCleared
  | nsNotRegistered
  | indexError
  | keyError (q : QName)
  | attributeError
  | typeError
  | load (e : LoadErr)
  | look (e : LookupErr)
  | checkError
deriving DecidableEq, Repr

/-- `dict.update`: fold the new bindings over the table in order. -/
def dictUpdate [DecidableEq κ] (t : List (κ × α)) (entries : List (κ × α)) : List (κ × α) :=
  entries.foldl (fun a p => tset a p.1 p.2) t

/-- `self.types[q].schema = meta_schema`: attach the meta-schema to an
anchor type; a missing key is a Python `KeyError`, a non-component slot
an `AttributeError`. -/
def setAnchor (tbl : Table) (q : QName) (m : Schema) : Except BuildErr Table :=
  match List.lookup q tbl with
  | some (.comp c) => .ok (tset tbl q (.comp {c with core := {c.core with schema := some m}}))
  | some _ => .error .attributeError
  | none => .error (.keyError q)

/-- The resolve phase's per-table loop body: force a lookup for each of
the given names in order, threading the table. -/
def resolveKeys (xc : XsdClasses) (kw : Kwargs) :
    Table → List QName → Except (LookupErr × Table) Table
  | tbl, [] => .ok tbl
  | tbl, q :: qs =>
    match lookup xc kw tbl q with
    | .error et => .error et
    | .ok (_, tbl', _) => resolveKeys xc kw tbl' qs

/-- `for qname in map: lookup(qname)`: force a lookup for every name
currently in the table (the key set is unchanged by value
replacement). -/
def resolveTable (xc : XsdClasses) (kw : Kwargs) (tbl : Table) :
    Except (LookupErr × Table) Table :=
  resolveKeys xc kw tbl (tbl.map Prod.fst)

/-- Modelled from the spec (phase 5, nested materialization): every
sub-item of a built component still represented as a raw
`(element, schema)` pair is replaced by the result of the externally
supplied element constructor (`kwargs.get('element_factory')`; a missing
constructor is Python `None`, and calling it raises `TypeError`).
Sub-components are modelled one level deep, so the constructed
component's own items are dropped. -/
def materializeItems (kw : Kwargs) : List GItem → Except BuildErr (List GItem)
  | [] => .ok []
  | .pair e s :: rest =>
    match kw "element_factory" with
    | none => .error .typeError
    | some f => (materializeItems kw rest).map (.comp (f e (some s) none).core :: ·)
  | .comp c :: rest => (materializeItems kw rest).map (.comp c :: ·)

/-- Phase 5 applied to one built component. -/
def materializeComp (kw : Kwargs) (c : Component) : Except BuildErr Component :=
  (materializeItems kw c.items).map (fun its => {c with items := its})

/-- Phase 5 applied to one global table: every slot must hold a component
(attribute access on a raw slot would raise `AttributeError`); the
in-place partial mutation of Python's unreachable error path is not
tracked. -/
def materializeTable (kw : Kwargs) : Table → Except BuildErr Table
  | [] => .ok []
  | (q, .comp c) :: rest =>
    match materializeComp kw c with
    | .error e => .error e
    | .ok c' => (materializeTable kw rest).map ((q, Slot.comp c') :: ·)
  | (_, _) :: _ => .error .attributeError

/-- Modelled from the spec (`qnames.reference_to_qname`): resolve a name
reference against an in-scope namespace map — a prefixed reference is
expanded through the map (and passed through when the prefix is unknown);
an unprefixed reference is returned unchanged, for the caller to
expand. -/
def reference_to_qname (ref : String) (nsmap : List (String × String)) : String :=
  if ref.data.contains ':' then
    let pfx := String.mk (ref.data.takeWhile (· ≠ ':'))
    let loc := String.mk ((ref.data.dropWhile (· ≠ ':')).drop 1)
    match List.lookup pfx nsmap with
    | some uri => get_qname uri loc
    | none => ref
  else ref

/-- The qualified name of an element's substitution-group head:
`reference_to_qname` against the element's namespace map, then — when the
result does not start with a brace — expansion with the element's own
target namespace. -/
def substName (c : CompCore) (r : String) : QName :=
  let n := reference_to_qname r c.nsmap
  if n.data.head? ≠ some '\x7b' then get_qname c.targetNamespace n else n

/-- `self.substitution_groups[name].add(xsd_element)` with set creation on
`KeyError`: sets are modelled as insertion-ordered duplicate-free
lists. -/
def sgAdd (sg : List (QName × List Component)) (n : QName) (c : Component) :
    List (QName × List Component) :=
  match List.lookup n sg with
  | some s => tset sg n (if c ∈ s then s else s ++ [c])
  | none => tset sg n [c]

/-- Phase 6, substitution-group derivation: every element-table slot (a
component after the resolve phase; attribute access on anything else
would raise `AttributeError`) with a truthy `substitution_group`
reference is added to the head's substitution set under `substName`. -/
def substPass : List (QName × Slot) → List (QName × List Component) →
    Except BuildErr (List (QName × List Component))
  | [], sg => .ok sg
  | (_, .comp c) :: rest, sg =>
    match c.core.substitutionGroup with
    | none => substPass rest sg
    | some r =>
      if r = "" then substPass rest sg
      else substPass rest (sgAdd sg (substName c.core r) c)
  | (_, _) :: _, _ => .error .attributeError

/-- Modelled from the spec (`group.iter_elements()`): the element-class
sub-components of a group's content, one level deep. -/
def iter_elements (c : Component) : List CompCore :=
  c.items.filterMap (fun it =>
    match it with
    | .comp l => if l.cls = "XsdElement" then some l else none
    | .pair _ _ => none)

/-- Phase 7's second half: for every global group, merge
`\x7be.name: e for e in group.iter_elements()\x7d` into the base-elements
table; an error carries the table as mutated so far. -/
def basePassGroups : Table → Table → Except (BuildErr × Table) Table
  | base, [] => .ok base
  | base, (_, .comp c) :: rest =>
    basePassGroups
      ((iter_elements c).foldl (fun a l => tset a l.nm (Slot.comp ⟨l, []⟩)) base) rest
  | base, (_, _) :: _ => .error (.attributeError, base)

/-- `XsdGlobals.build`: the orchestrator, with its source's strict phase
order — precondition checks (no prior schema errors, all tables empty),
meta-namespace lookup, built-in type seeding and anchor attachment,
lax-mode pre-validation, the seven category load runs, the six forced
resolve runs, nested materialization, substitution-group derivation,
base-elements derivation, and the final check.  An error carries the
state as mutated up to the raise point. -/
def build (skip_check : Bool) (opts : Opts) (g : XsdGlobals) :
    Except (BuildErr × XsdGlobals) XsdGlobals :=
  if (XsdGlobals.iter_schemas g).any (fun s => !(schemaErrors g s).isEmpty) ||
     (XsdGlobals.global_maps g).any (fun d => !d.isEmpty) ||
     !g.base_elements.isEmpty || !g.substitution_groups.isEmpty then
    .error (.notCleared, g)
  else
    match List.lookup XSD_NAMESPACE_PATH g.namespaces with
    | none => .error (.nsNotRegistered, g)
    | some [] => .error (.indexError, g)
    | some (meta_schema :: _) =>
      let seeded := dictUpdate g.types (opts.BUILTIN_TYPES.map (fun p => (p.1, Slot.comp p.2)))
      let g := {g with types := seeded}
      match setAnchor g.types XSD_ANY_TYPE meta_schema with
      | .error e => .error (e, g)
      | .ok t₁ =>
      let g := {g with types := t₁}
      match setAnchor g.types XSD_ANY_SIMPLE_TYPE meta_schema with
      | .error e => .error (e, g)
      | .ok t₂ =>
      let g := {g with types := t₂}
      match setAnchor g.types XSD_ANY_ATOMIC_TYPE meta_schema with
      | .error e => .error (e, g)
      | .ok t₃ =>
      let g := {g with types := t₃}
      let laxErrs := (XsdGlobals.iter_schemas g).foldl
        (fun a s => tset a s.sid
          ((List.lookup s.sid a).getD [] ++ opts.META_SCHEMA_errors s)) g.errs
      let g := if g.validation = "lax" then {g with errs := laxErrs} else g
      match load_xsd_globals XSD_NOTATION_TAG g.notations (XsdGlobals.iter_schemas g) with
      | .error (e, t') => .error (.load e, {g with notations := t'})
      | .ok tn =>
      let g := {g with notations := tn}
      match load_xsd_globals XSD_SIMPLE_TYPE_TAG g.types (XsdGlobals.iter_schemas g) with
      | .error (e, t') => .error (.load e, {g with types := t'})
      | .ok tst =>
      let g := {g with types := tst}
      match load_xsd_globals XSD_ATTRIBUTE_TAG g.attributes (XsdGlobals.iter_schemas g) with
      | .error (e, t') => .error (.load e, {g with attributes := t'})
      | .ok ta =>
      let g := {g with attributes := ta}
      match load_xsd_globals XSD_ATTRIBUTE_GROUP_TAG g.attribute_groups
          (XsdGlobals.iter_schemas g) with
      | .error (e, t') => .error (.load e, {g with attribute_groups := t'})
      | .ok tag =>
      let g := {g with attribute_groups := tag}
      match load_xsd_globals XSD_COMPLEX_TYPE_TAG g.types (XsdGlobals.iter_schemas g) with
      | .error (e, t') => .error (.load e, {g with types := t'})
      | .ok tct =>
      let g := {g with types := tct}
      match load_xsd_globals XSD_ELEMENT_TAG g.elements (XsdGlobals.iter_schemas g) with
      | .error (e, t') => .error (.load e, {g with elements := t'})
      | .ok te =>
      let g := {g with elements := te}
      match load_xsd_globals XSD_GROUP_TAG g.groups (XsdGlobals.iter_schemas g) with
      | .error (e, t') => .error (.load e, {g with groups := t'})
      | .ok tg =>
      let g := {g with groups := tg}
      match resolveTable (.single XsdNotationCI) opts.factories g.notations with
      | .error (e, t') => .error (.look e, {g with notations := t'})
      | .ok rn =>
      let g := {g with notations := rn}
      match resolveTable (.single XsdAttributeCI) opts.factories g.attributes with
      | .error (e, t') => .error (.look e, {g with attributes := t'})
      | .ok ra =>
      let g := {g with attributes := ra}
      match resolveTable (.single XsdAttributeGroupCI) opts.factories g.attribute_groups with
      | .error (e, t') => .error (.look e, {g with attribute_groups := t'})
      | .ok rag =>
      let g := {g with attribute_groups := rag}
      match resolveTable (.multi [XsdSimpleTypeCI, XsdComplexTypeCI]) opts.factories
          g.types with
      | .error (e, t') => .error (.look e, {g with types := t'})
      | .ok rt =>
      let g := {g with types := rt}
      match resolveTable (.single XsdElementCI) opts.factories g.elements with
      | .error (e, t') => .error (.look e, {g with elements := t'})
      | .ok re =>
      let g := {g with elements := re}
      match resolveTable (.single XsdGroupCI) opts.factories g.groups with
      | .error (e, t') => .error (.look e, {g with groups := t'})
      | .ok rg =>
      let g := {g with groups := rg}
      match materializeTable opts.factories g.notations with
      | .error e => .error (e, g)
      | .ok mn =>
      match materializeTable opts.factories g.types with
      | .error e => .error (e, g)
      | .ok mt =>
      match materializeTable opts.factories g.attributes with
      | .error e => .error (e, g)
      | .ok ma =>
      match materializeTable opts.factories g.attribute_groups with
      | .error e => .error (e, g)
      | .ok mag =>
      match materializeTable opts.factories g.groups with
      | .error e => .error (e, g)
      | .ok mg =>
      match materializeTable opts.factories g.elements with
      | .error e => .error (e, g)
      | .ok me =>
      let g := {g with notations := mn, types := mt, attributes := ma,
                       attribute_groups := mag, groups := mg, elements := me}
      match substPass g.elements g.substitution_groups with
      | .error e => .error (e, g)
      | .ok sg =>
      let g := {g with substitution_groups := sg}
      let g := {g with base_elements := dictUpdate g.base_elements g.elements}
      match basePassGroups g.base_elements g.groups with
      | .error (e, b') => .error (e, {g with base_elements := b'})
      | .ok be =>
      let g := {g with base_elements := be}
      if !skip_check && (XsdGlobals.iter_schemas g).any opts.check_fails then
        .error (.checkError, g)
      else .ok g

/-- `NamespaceView`: a read-only projection of a qualified-name-keyed
table restricted to one namespace URI. -/
structure NamespaceView (α : Type) where
  target_dict : List (String × α)
  ns : String
deriving DecidableEq, Repr

/-- The stored key format: `'\x7b' + namespace_uri + '\x7d%s'` for a truthy
namespace, the identity format otherwise. -/
def key_fmt (v : NamespaceView α) (k : String) : String :=
  if v.ns = "" then k else "\x7b" ++ v.ns ++ "\x7d" ++ k

/-- `view[key]`: the local name is promoted through the key format and the
backing table is probed (a miss is Python `KeyError`). -/
def NamespaceView.getItem (v : NamespaceView α) (k : String) : Option α :=
  List.lookup (key_fmt v k) v.target_dict

/-- `key in view`: membership of the promoted key in the backing table. -/
def NamespaceView.containsKey (v : NamespaceView α) (k : String) : Bool :=
  (List.lookup (key_fmt v k) v.target_dict).isSome

/-- `as_dict(fqn_keys=True)`: the entries of the backing table whose key's
namespace equals the view's, under their full qualified names. -/
def NamespaceView.as_dict_fqn (v : NamespaceView α) : List (String × α) :=
  v.target_dict.filter (fun p => v.ns = get_namespace p.1)

/-- `as_dict()`: the same filtered snapshot keyed by local name (a dict
comprehension, so a later colliding local name overwrites an earlier
one). -/
def NamespaceView.as_dict (v : NamespaceView α) : List (String × α) :=
  v.target_dict.foldl
    (fun a p => if v.ns = get_namespace p.1 then tset a (local_name p.1) p.2 else a) []

/-- `len(view)`: the size of the local-name-keyed snapshot. -/
def NamespaceView.len (v : NamespaceView α) : Nat := v.as_dict.length

/-- `iter(view)`: the keys of the local-name-keyed snapshot. -/
def NamespaceView.iterKeys (v : NamespaceView α) : List String := v.as_dict.map Prod.fst

/-! ### Association-list lemmas -/


/-! ### Scenario and witness data, and derived definitions used by the theorems -/

/-- A concrete built element used by witnesses. -/
def wBuiltElement : Component :=
  ⟨⟨"XsdElement", "element_factory", true, "E", ⟨"", "E", 0⟩, none, none, "", []⟩, []⟩

/-- The declaration and redefinition elements of the C1 scenario. -/
def c1_elem (n : Nat) : Elem := ⟨XSD_SIMPLE_TYPE_TAG, "N", n⟩

/-- A schema carrying a base simple-type declaration `N` followed by two
redefine blocks rewriting `N`. -/
def c1_schema : Schema :=
  ⟨1, some "u1", "tns", [.decl (c1_elem 0), .redefine [c1_elem 1], .redefine [c1_elem 2]]⟩

/-- The table the loader produces for the C1 scenario: a three-item
fan-out list of raw pairs under `\x7btns\x7dN`. -/
def c1_table : Table :=
  [("\x7btns\x7dN", .list [.pair (c1_elem 0) c1_schema, .pair (c1_elem 1) c1_schema,
     .pair (c1_elem 2) c1_schema])]

/-- The orphan schema of the C4 witness: a redefine block for `M` with no
declaration anywhere. -/
def c4_schema : Schema := ⟨1, none, "tns", [.redefine [⟨XSD_ELEMENT_TAG, "M", 0⟩]]⟩

/-- A registered schema for the C10 witness. -/
def w10_schema : Schema := ⟨5, none, "ns", []⟩

/-- A state with one registered schema, an error on it, and a loaded
types slot, for the C10 witness. -/
def w10_g : XsdGlobals :=
  ⟨"strict", [("ns", [w10_schema])], [],
   [("x", .pair ⟨"t", "x", 0⟩ w10_schema)], [], [], [], [], [], [], [], [(5, [7])]⟩

/-- A trivial option bundle for witnesses. -/
def w2_opts : Opts := ⟨fun _ => none, [], fun _ => [], fun _ => false⟩

/-- A not-cleared state (non-empty types table) for the C2 witness. -/
def w2_g : XsdGlobals :=
  ⟨"strict", [], [], [("x", .pair ⟨"t", "x", 0⟩ ⟨1, none, "", []⟩)],
   [], [], [], [], [], [], [], []⟩

/-- The representation invariant the registries maintain: every resource
entry binds a truthy URI to a schema carrying that URI that is already a
member of its target-namespace group, and every group member with a
truthy URI is the schema its URI is bound to. -/
def RegInv (g : XsdGlobals) : Prop :=
  (∀ p ∈ g.resources, p.2.uri = some p.1 ∧ p.1 ≠ "" ∧
     ∃ grp, List.lookup p.2.targetNamespace g.namespaces = some grp ∧ p.2 ∈ grp) ∧
  (∀ q ∈ g.namespaces, ∀ o ∈ q.2, ∀ u, o.uri = some u → u ≠ "" →
     List.lookup u g.resources = some o)

/-- The registered schema of the C9 witness. -/
def w9_schema : Schema := ⟨1, some "u", "ns", []⟩

/-- A consistent registry state holding `w9_schema`. -/
def w9_g : XsdGlobals :=
  ⟨"strict", [("ns", [w9_schema])], [("u", w9_schema)],
   [], [], [], [], [], [], [], [], []⟩

/-- A three-entry backing table (two namespaces and a bare name) for the
C8 witness. -/
def w8_view : NamespaceView Nat :=
  ⟨[("\x7bU\x7da", 1), ("b", 2), ("\x7bV\x7dc", 3)], "U"⟩

/-- The `anyType` anchor builtin for the C7 witness. -/
def w7_anyC : Component :=
  ⟨⟨"XsdComplexType", "complex_type_factory", true, XSD_ANY_TYPE, ⟨"", "anyType", 0⟩,
    none, none, XSD_NAMESPACE_PATH, []⟩, []⟩

/-- The `anySimpleType` anchor builtin for the C7 witness. -/
def w7_asC : Component :=
  ⟨⟨"XsdSimpleType", "simple_type_factory", true, XSD_ANY_SIMPLE_TYPE, ⟨"", "anySimpleType", 0⟩,
    none, none, XSD_NAMESPACE_PATH, []⟩, []⟩

/-- The `anyAtomicType` anchor builtin for the C7 witness. -/
def w7_aaC : Component :=
  ⟨⟨"XsdSimpleType", "simple_type_factory", true, XSD_ANY_ATOMIC_TYPE, ⟨"", "anyAtomicType", 0⟩,
    none, none, XSD_NAMESPACE_PATH, []⟩, []⟩

/-- A meta-schema registered under the XSD namespace. -/
def w7_meta : Schema := ⟨0, some "meta", XSD_NAMESPACE_PATH, []⟩

/-- A schema declaring the element `E` in namespace `nsA`. -/
def w7_sE : Schema := ⟨2, some "u2", "nsA", [.decl ⟨XSD_ELEMENT_TAG, "E", 0⟩]⟩

/-- The component the element factory of the C7 witness returns: a built
element with substitution-group head reference `head`. -/
def w7_elemC : Component :=
  ⟨⟨"XsdElement", "element_factory", true, "\x7bnsA\x7dE", ⟨XSD_ELEMENT_TAG, "E", 0⟩,
    some w7_sE, some "head", "nsA", []⟩, []⟩

/-- Options for the C7 witness: anchors seeded, element factory
supplied. -/
def w7_opts : Opts :=
  ⟨fun k => if k = "element_factory" then some (fun _ _ _ => w7_elemC) else none,
   [(XSD_ANY_TYPE, w7_anyC), (XSD_ANY_SIMPLE_TYPE, w7_asC), (XSD_ANY_ATOMIC_TYPE, w7_aaC)],
   fun _ => [], fun _ => false⟩

/-- The registered state of the C7 witness. -/
def w7_g : XsdGlobals := register (register (initGlobals "strict") w7_meta) w7_sE

/-- The state a successful build of `w7_g` produces. -/
def w7_out : XsdGlobals :=
  match build true w7_opts w7_g with
  | .ok r => r
  | .error p => p.2

/-- Two tables are equivalent as maps: lookups agree on every name. -/
def tablesEquiv (t1 t2 : Table) : Prop := ∀ q, List.lookup q t1 = List.lookup q t2

/-- The value the `try append` accumulation step stores for one key,
as a function of the key's previous slot. -/
def slotStep : Option Slot → Elem → Schema → Slot
  | none, e, s => .pair e s
  | some (.pair e' s'), e, s => .list [.pair e' s', .pair e s]
  | some (.comp c), e, s => .list [.comp c, .pair e s]
  | some (.list l), e, s => .list (l ++ [.pair e s])

/-- The flattened in-order sequence of a load run's direct top-level
contributions: `(qualified name, element, schema)` per declaration. -/
def loadContribs (t : String) (ss : List Schema) : List (QName × Elem × Schema) :=
  ss.flatMap (fun s => (schemaDecls t s).map
    (fun e => (get_qname s.targetNamespace e.nm, e, s)))

/-- The flattened in-order sequence of a load run's pending
redefinitions: `(qualified name, redefine child, schema)` per
`redefine`-block child matching the category tag, accumulated across the
scanned schemas. -/
def redefContribs (t : String) (ss : List Schema) : List (QName × Elem × Schema) :=
  ss.flatMap (fun s => (schemaRedefs t s).map
    (fun c => (get_qname s.targetNamespace c.nm, c, s)))

/-- Every name's redefine-block contributions come from at most one
schema of the sequence: for each qualified name, at most one scanned
schema carries `redefine` children targeting it (that one schema may
still redefine the name several times, its internal order being fixed by
document order, not by registration order). -/
def singleRedefBlock (t : String) (ss : List Schema) : Prop :=
  ∀ q : QName,
    ((ss.map (fun s => ((schemaRedefs t s).map
        (fun c => (get_qname s.targetNamespace c.nm, c, s))).filter
      (fun p => p.1 = q))).filter (fun l => !l.isEmpty)).length ≤ 1

/-- The `anyType` anchor builtin for the C6 scenarios. -/
def c6_anyC : Component :=
  ⟨⟨"XsdComplexType", "complex_type_factory", true, XSD_ANY_TYPE, ⟨"", "anyType", 0⟩,
    none, none, XSD_NAMESPACE_PATH, []⟩, []⟩

/-- The `anySimpleType` anchor builtin for the C6 scenarios. -/
def c6_asC : Component :=
  ⟨⟨"XsdSimpleType", "simple_type_factory", true, XSD_ANY_SIMPLE_TYPE, ⟨"", "anySimpleType", 0⟩,
    none, none, XSD_NAMESPACE_PATH, []⟩, []⟩

/-- The `anyAtomicType` anchor builtin for the C6 scenarios. -/
def c6_aaC : Component :=
  ⟨⟨"XsdSimpleType", "simple_type_factory", true, XSD_ANY_ATOMIC_TYPE, ⟨"", "anyAtomicType", 0⟩,
    none, none, XSD_NAMESPACE_PATH, []⟩, []⟩

/-- Options for the C6 counterexample: anchors only. -/
def c6_opts : Opts :=
  ⟨fun _ => none,
   [(XSD_ANY_TYPE, c6_anyC), (XSD_ANY_SIMPLE_TYPE, c6_asC), (XSD_ANY_ATOMIC_TYPE, c6_aaC)],
   fun _ => [], fun _ => false⟩

/-- First schema registered for the XSD namespace. -/
def c6_s1 : Schema := ⟨1, some "u1", XSD_NAMESPACE_PATH, []⟩

/-- Second schema registered for the XSD namespace. -/
def c6_s2 : Schema := ⟨2, some "u2", XSD_NAMESPACE_PATH, []⟩

/-- Registration order `s1` then `s2`. -/
def c6_gA : XsdGlobals := register (register (initGlobals "strict") c6_s1) c6_s2

/-- Registration order `s2` then `s1`. -/
def c6_gB : XsdGlobals := register (register (initGlobals "strict") c6_s2) c6_s1

/-- The built state for order `s1, s2`. -/
def c6_outA : XsdGlobals :=
  match build true c6_opts c6_gA with
  | .ok r => r
  | .error p => p.2

/-- The built state for order `s2, s1`. -/
def c6_outB : XsdGlobals :=
  match build true c6_opts c6_gB with
  | .ok r => r
  | .error p => p.2

/-- The meta-schema of the C6 witness. -/
def w6_meta : Schema := ⟨0, some "meta", XSD_NAMESPACE_PATH, []⟩

/-- A schema declaring `E` in `nsA`. -/
def w6_s2 : Schema := ⟨2, some "u2", "nsA", [.decl ⟨XSD_ELEMENT_TAG, "E", 0⟩]⟩

/-- A schema declaring `F` in `nsB`. -/
def w6_s3 : Schema := ⟨3, some "u3", "nsB", [.decl ⟨XSD_ELEMENT_TAG, "F", 0⟩]⟩

/-- Options for the C6 witness, with element and simple-type
factories. -/
def w6_opts : Opts :=
  ⟨fun k => if k = "element_factory" then
      some (fun e s _ =>
        ⟨⟨"XsdElement", "element_factory", true,
          get_qname ((s.map Schema.targetNamespace).getD "") e.nm, e, s, none,
          (s.map Schema.targetNamespace).getD "", []⟩, []⟩)
    else if k = "simple_type_factory" then
      some (fun e s _ =>
        ⟨⟨"XsdSimpleType", "simple_type_factory", true,
          get_qname ((s.map Schema.targetNamespace).getD "") e.nm, e, s, none,
          (s.map Schema.targetNamespace).getD "", []⟩, []⟩)
    else none,
   [(XSD_ANY_TYPE, c6_anyC), (XSD_ANY_SIMPLE_TYPE, c6_asC), (XSD_ANY_ATOMIC_TYPE, c6_aaC)],
   fun _ => [], fun _ => false⟩

/-- A schema of the XSD namespace carrying one `redefine` block for the
builtin `anySimpleType` — the single-schema redefinition the amended
order-independence statement admits. -/
def w6_red : Schema :=
  ⟨1, some "u1", XSD_NAMESPACE_PATH, [.redefine [⟨XSD_SIMPLE_TYPE_TAG, "anySimpleType", 1⟩]]⟩

/-- Registration order `meta, red, s2, s3`. -/
def w6_gA : XsdGlobals :=
  register (register (register (register (initGlobals "strict") w6_meta) w6_red) w6_s2) w6_s3

/-- Registration order `meta, red, s3, s2`. -/
def w6_gB : XsdGlobals :=
  register (register (register (register (initGlobals "strict") w6_meta) w6_red) w6_s3) w6_s2

/-- The built state for the first order. -/
def w6_outA : XsdGlobals :=
  match build true w6_opts w6_gA with
  | .ok r => r
  | .error p => p.2

/-- The built state for the second order. -/
def w6_outB : XsdGlobals :=
  match build true w6_opts w6_gB with
  | .ok r => r
  | .error p => p.2

/-- The namespace-group half of `register`, as its own function for the
invariant-preservation proofs; `register`'s tail is definitionally this
function. -/
def registerNamespace (g : XsdGlobals) (s : Schema) : XsdGlobals :=
  match List.lookup s.targetNamespace g.namespaces with
  | none => {g with namespaces := tset g.namespaces s.targetNamespace [s]}
  | some ns_schemas =>
    if s ∈ ns_schemas then g
    else if ns_schemas.any (fun o => s.uri = o.uri) then g
    else {g with namespaces := tset g.namespaces s.targetNamespace (ns_schemas ++ [s])}

theorem lookup_cons [DecidableEq κ] (k a : κ) (b : α) (l : List (κ × α)) :
    List.lookup k ((a, b) :: l) = if k = a then some b else List.lookup k l := by
  by_cases h : k = a
  · subst h; simp [List.lookup]
  · rw [List.lookup, if_neg h, beq_eq_false_iff_ne.mpr h]

theorem lookup_tset_eq [DecidableEq κ] (t : List (κ × α)) (k : κ) (v : α) :
    List.lookup k (tset t k v) = some v := by
  induction t with
  | nil => simp [tset, lookup_cons]
  | cons p rest ih =>
    rcases p with ⟨a, b⟩
    by_cases h : a = k
    · simp [tset, h, lookup_cons]
    · simp [tset, h, lookup_cons, Ne.symm h, ih]

theorem lookup_tset_ne [DecidableEq κ] (t : List (κ × α)) (k k' : κ) (v : α)
    (h : k' ≠ k) : List.lookup k' (tset t k v) = List.lookup k' t := by
  induction t with
  | nil => simp [tset, lookup_cons, h]
  | cons p rest ih =>
    rcases p with ⟨a, b⟩
    by_cases ha : a = k
    · subst ha
      simp [tset, lookup_cons, h]
    · simp [tset, ha, lookup_cons, ih]

theorem tset_self [DecidableEq κ] (t : List (κ × α)) (k : κ) (v : α)
    (h : List.lookup k t = some v) : tset t k v = t := by
  induction t with
  | nil => simp [List.lookup] at h
  | cons p rest ih =>
    rcases p with ⟨a, b⟩
    rw [lookup_cons] at h
    by_cases hk : a = k
    · subst hk
      rw [if_pos rfl] at h
      cases h
      simp [tset]
    · rw [if_neg (Ne.symm hk)] at h
      simp [tset, hk, ih h]

theorem tset_keys [DecidableEq κ] (t : List (κ × α)) (k : κ) (v : α)
    (h : k ∈ t.map Prod.fst) : (tset t k v).map Prod.fst = t.map Prod.fst := by
  induction t with
  | nil => simp at h
  | cons p rest ih =>
    by_cases hk : p.1 = k
    · simp [tset, hk]
    · simp only [List.map_cons, List.mem_cons] at h
      rcases h with h | h
      · exact absurd h.symm hk
      · simp [tset, hk, ih h]

theorem tset_fresh [DecidableEq κ] (t : List (κ × α)) (k : κ) (v : α)
    (h : k ∉ t.map Prod.fst) : tset t k v = t ++ [(k, v)] := by
  induction t with
  | nil => simp [tset]
  | cons p rest ih =>
    simp only [List.map_cons, List.mem_cons] at h
    push_neg at h
    simp [tset, Ne.symm h.1, ih h.2]

theorem lookup_isSome_of_mem_keys [DecidableEq κ] (t : List (κ × α)) (k : κ)
    (h : k ∈ t.map Prod.fst) : (List.lookup k t).isSome := by
  induction t with
  | nil => simp at h
  | cons p rest ih =>
    rcases p with ⟨a, b⟩
    rw [lookup_cons]
    by_cases hk : k = a
    · simp [hk]
    · simp only [List.map_cons, List.mem_cons] at h
      rcases h with h | h
      · exact absurd h hk
      · simp [hk, ih h]

theorem mem_of_lookup_eq_some [DecidableEq κ] {t : List (κ × α)} {k : κ} {v : α}
    (h : List.lookup k t = some v) : (k, v) ∈ t := by
  induction t with
  | nil => simp [List.lookup] at h
  | cons p rest ih =>
    rcases p with ⟨a, b⟩
    rw [lookup_cons] at h
    by_cases hk : k = a
    · rw [if_pos hk] at h
      cases h
      simp [hk]
    · rw [if_neg hk] at h
      exact List.mem_cons_of_mem _ (ih h)

theorem lookup_eq_none_of_not_mem_keys [DecidableEq κ] {t : List (κ × α)} {k : κ}
    (h : k ∉ t.map Prod.fst) : List.lookup k t = none := by
  induction t with
  | nil => simp [List.lookup]
  | cons p rest ih =>
    simp only [List.map_cons, List.mem_cons] at h
    push_neg at h
    rcases p with ⟨a, b⟩
    rw [lookup_cons, if_neg h.1]
    exact ih h.2

/-- `slotAppend` only rewrites its own key's slot, through `slotStep`. -/
theorem slotAppend_eq_tset (tbl : Table) (q : QName) (e : Elem) (s : Schema) :
    slotAppend tbl q e s = tset tbl q (slotStep (List.lookup q tbl) e s) := by
  unfold slotAppend slotStep
  cases List.lookup q tbl with
  | none => rfl
  | some sl => cases sl <;> rfl

/-- The scan phase of a load run, in general: the table is the fold of
the flattened declaration contributions and the pending list is the
flattened redefine-block contributions, appended in scan order. -/
theorem load_scan_full (t : String) (ss : List Schema) :
    ∀ (init : Table) (pend : List (QName × Elem × Schema)),
      ss.foldl (fun (acc : Table × List (QName × Elem × Schema)) (s : Schema) =>
        ((schemaDecls t s).foldl
          (fun a e => slotAppend a (get_qname s.targetNamespace e.nm) e s) acc.1,
         acc.2 ++ (schemaRedefs t s).map (fun c => (get_qname s.targetNamespace c.nm, c, s))))
        (init, pend) =
      ((loadContribs t ss).foldl (fun a p => slotAppend a p.1 p.2.1 p.2.2) init,
       pend ++ redefContribs t ss) := by
  induction ss with
  | nil => intro init pend; simp [loadContribs, redefContribs]
  | cons s rest ih =>
    intro init pend
    rw [List.foldl_cons, ih]
    unfold loadContribs redefContribs
    rw [List.flatMap_cons, List.flatMap_cons, List.foldl_append, List.foldl_map,
      List.append_assoc]

/-- Every load run is the redefinition pass applied to the declaration
fold, with the flattened pending redefinitions. -/
theorem load_eq_apply (t : String) (ss : List Schema) (init : Table) :
    load_xsd_globals t init ss =
      applyRedefs ((loadContribs t ss).foldl (fun a p => slotAppend a p.1 p.2.1 p.2.2) init)
        (redefContribs t ss) := by
  unfold load_xsd_globals
  dsimp only []
  rw [load_scan_full t ss init []]
  rfl

/-- The first pending redefinition whose target is absent raises the
"not a redefinition" error for exactly that name and element, the table
at the raise point being the scanned table as mutated by the earlier
pending entries — and that table still has no entry under the name. -/
theorem applyRedefs_first (q : QName) (e : Elem) (s : Schema)
    (post : List (QName × Elem × Schema)) :
    ∀ (pre : List (QName × Elem × Schema)) (tbl : Table),
      (∀ p ∈ pre, (List.lookup p.1 tbl).isSome) →
      List.lookup q tbl = none →
      applyRedefs tbl (pre ++ (q, e, s) :: post) =
          .error (.notARedefinition q e,
            pre.foldl (fun a p => slotAppend a p.1 p.2.1 p.2.2) tbl) ∧
        List.lookup q (pre.foldl (fun a p => slotAppend a p.1 p.2.1 p.2.2) tbl) = none := by
  intro pre
  induction pre with
  | nil =>
    intro tbl _ hq
    refine ⟨?_, hq⟩
    rw [List.nil_append]
    unfold applyRedefs
    rw [if_neg (by rw [hq]; simp)]
    rfl
  | cons p pre ih =>
    intro tbl hpre hq
    rcases p with ⟨q₁, e₁, s₁⟩
    have hp : (List.lookup q₁ tbl).isSome := hpre ⟨q₁, e₁, s₁⟩ (by simp)
    have hne : q₁ ≠ q := by
      intro hh
      rw [hh, hq] at hp
      simp at hp
    have hpre' : ∀ r ∈ pre, (List.lookup r.1 (slotAppend tbl q₁ e₁ s₁)).isSome := by
      intro r hr
      have hr2 := hpre r (List.mem_cons_of_mem _ hr)
      rw [slotAppend_eq_tset]
      by_cases hrq : r.1 = q₁
      · rw [hrq, lookup_tset_eq]
        simp
      · rw [lookup_tset_ne _ _ _ _ hrq]
        exact hr2
    have hq' : List.lookup q (slotAppend tbl q₁ e₁ s₁) = none := by
      rw [slotAppend_eq_tset, lookup_tset_ne _ _ _ _ (Ne.symm hne)]
      exact hq
    obtain ⟨hmain, hnone⟩ := ih (slotAppend tbl q₁ e₁ s₁) hpre' hq'
    constructor
    · rw [List.cons_append]
      unfold applyRedefs
      rw [if_pos hp, hmain, List.foldl_cons]
    · rw [List.foldl_cons]
      exact hnone

/-- Any pending redefinition with an absent target forces the
redefinition pass to fail with a "not a redefinition" error whose
error-time table still has no entry under that absent name. -/
theorem applyRedefs_absent (q : QName) :
    ∀ (rs : List (QName × Elem × Schema)) (tbl : Table),
      (∃ e s, (q, e, s) ∈ rs) → List.lookup q tbl = none →
      ∃ q' e' tblE, applyRedefs tbl rs = .error (.notARedefinition q' e', tblE) ∧
        List.lookup q tblE = none := by
  intro rs
  induction rs with
  | nil =>
    intro tbl hmem _
    obtain ⟨e, s, hm⟩ := hmem
    simp at hm
  | cons r rest ih =>
    intro tbl hmem hq
    rcases r with ⟨q₁, e₁, s₁⟩
    by_cases hk : (List.lookup q₁ tbl).isSome
    · have hne : q₁ ≠ q := by
        intro hh
        rw [hh, hq] at hk
        simp at hk
      have hq' : List.lookup q (slotAppend tbl q₁ e₁ s₁) = none := by
        rw [slotAppend_eq_tset, lookup_tset_ne _ _ _ _ (Ne.symm hne)]
        exact hq
      obtain ⟨e, s, hm⟩ := hmem
      have hm' : (q, e, s) ∈ rest := by
        rcases List.mem_cons.mp hm with hh | hh
        · injection hh with h1 h2
          exact absurd h1.symm hne
        · exact hh
      obtain ⟨q', e', tblE, hres, hnone⟩ := ih (slotAppend tbl q₁ e₁ s₁) ⟨e, s, hm'⟩ hq'
      refine ⟨q', e', tblE, ?_, hnone⟩
      unfold applyRedefs
      rw [if_pos hk]
      exact hres
    · refine ⟨q₁, e₁, tbl, ?_, hq⟩
      unfold applyRedefs
      rw [if_neg hk]

/-! ### C3: idempotent fast path of lookup -/

/-- C3: for every category lookup on a name whose table slot already holds
a fully built component of an accepted class, the lookup returns that same
object, leaves the table unchanged, and invokes no construction function
(the invocation trace is empty); repeated lookups of a built name
therefore all return the identical object. -/
theorem lookup_built_fast_path (xc : XsdClasses) (kw : Kwargs) (tbl : Table) (q : QName)
    (c : Component) (hslot : List.lookup q tbl = some (.comp c))
    (hinst : isInstance c xc = true) (hbuilt : c.core.built = true) :
    lookup xc kw tbl q = .ok (c, tbl, []) := by
  unfold lookup
  rw [hslot]
  simp only [slotResolveT, hinst, if_true, hbuilt]
  simp [tset_self _ _ _ hslot]

/-- Witness for C3 at a one-entry table holding a built element. -/
theorem lookup_built_fast_path_witness :
    lookup (.single XsdElementCI) (fun _ => none) [("E", Slot.comp wBuiltElement)] "E" =
      .ok (wBuiltElement, [("E", Slot.comp wBuiltElement)], []) :=
  lookup_built_fast_path (.single XsdElementCI) (fun _ => none) _ "E" wBuiltElement
    (by rfl) (by rfl) (by rfl)

/-! ### C1: redefinition chains in lookup -/

/-- C1: a base declaration under `N` plus two sequential redefinitions is
loaded as a three-item fan-out list of raw `(element, schema)` pairs, and
the subsequent category lookup on `N` — whatever construction functions
are supplied — does not fold the redefinitions but raises
`XMLSchemaTypeError` (the chain branch requires the list head to be an
already-constructed component, which the loader never produces, and a
three-item list of raw pairs matches no other branch). -/
theorem redefine_chain_three_pairs_type_error :
    load_xsd_globals XSD_SIMPLE_TYPE_TAG [] [c1_schema] = .ok c1_table ∧
    ∀ kw : Kwargs,
      lookup (.multi [XsdSimpleTypeCI, XsdComplexTypeCI]) kw c1_table "\x7btns\x7dN" =
        .error (.typeMismatch, c1_table) := by
  exact ⟨by rfl, fun kw => by rfl⟩

/-! ### C4 and C5: the loader's accumulation discipline -/

theorem applyRedefs_orphan (rs : List (QName × Elem × Schema)) :
    ∀ tbl q e tblE, applyRedefs tbl rs = .error (.notARedefinition q e, tblE) →
      List.lookup q tblE = none := by
  induction rs with
  | nil => intro tbl q e tblE h; simp [applyRedefs] at h
  | cons r rest ih =>
    intro tbl q e tblE h
    rcases r with ⟨q', e', s'⟩
    unfold applyRedefs at h
    by_cases hk : (List.lookup q' tbl).isSome
    · rw [if_pos hk] at h
      exact ih _ _ _ _ h
    · rw [if_neg hk] at h
      cases h
      exact Option.not_isSome_iff_eq_none.mp hk

/-- C4: for every load run of any category, a pending redefinition whose
target qualified name is absent from the global table after all schemas
are scanned makes the run raise the "not a redefinition" parse error —
the first such pending entry raises it attached to its own offending
element and target name, the table at the raise point (the scanned table
as mutated by the earlier pending entries) holding no entry under that
name, and any absent-target pending entry forces the run to fail with a
"not a redefinition" error whose error-time table still has no entry
under that name; when the target does exist, a single raw pair becomes a
two-item chain and an existing fan-out list is appended to. -/
theorem orphan_redefinition_rejected :
    (∀ (t : String) (tbl₀ : Table) (ss : List Schema)
        (pre : List (QName × Elem × Schema)) (q : QName) (e : Elem) (s : Schema)
        (post : List (QName × Elem × Schema)),
      redefContribs t ss = pre ++ (q, e, s) :: post →
      (∀ p ∈ pre, (List.lookup p.1
        ((loadContribs t ss).foldl (fun a r => slotAppend a r.1 r.2.1 r.2.2) tbl₀)).isSome) →
      List.lookup q
        ((loadContribs t ss).foldl (fun a r => slotAppend a r.1 r.2.1 r.2.2) tbl₀) = none →
      load_xsd_globals t tbl₀ ss =
          .error (.notARedefinition q e,
            pre.foldl (fun a r => slotAppend a r.1 r.2.1 r.2.2)
              ((loadContribs t ss).foldl (fun a r => slotAppend a r.1 r.2.1 r.2.2) tbl₀)) ∧
        List.lookup q (pre.foldl (fun a r => slotAppend a r.1 r.2.1 r.2.2)
          ((loadContribs t ss).foldl (fun a r => slotAppend a r.1 r.2.1 r.2.2) tbl₀)) = none) ∧
    (∀ (t : String) (tbl₀ : Table) (ss : List Schema) (q : QName) (e : Elem) (s : Schema),
      (q, e, s) ∈ redefContribs t ss →
      List.lookup q
        ((loadContribs t ss).foldl (fun a r => slotAppend a r.1 r.2.1 r.2.2) tbl₀) = none →
      ∃ q' e' tblE, load_xsd_globals t tbl₀ ss = .error (.notARedefinition q' e', tblE) ∧
        List.lookup q tblE = none) ∧
    (∀ tbl q e s e' s', List.lookup q tbl = some (.pair e' s') →
      slotAppend tbl q e s = tset tbl q (.list [.pair e' s', .pair e s])) ∧
    (∀ tbl q e s l, List.lookup q tbl = some (.list l) →
      slotAppend tbl q e s = tset tbl q (.list (l ++ [.pair e s]))) := by
  refine ⟨?_, ?_, ?_, ?_⟩
  · intro t tbl₀ ss pre q e s post hdec hpre hq
    rw [load_eq_apply, hdec]
    exact applyRedefs_first q e s post pre _ hpre hq
  · intro t tbl₀ ss q e s hm hq
    rw [load_eq_apply]
    exact applyRedefs_absent q (redefContribs t ss) _ ⟨e, s, hm⟩ hq
  · intro tbl q e s e' s' h
    unfold slotAppend
    rw [h]
  · intro tbl q e s l h
    unfold slotAppend
    rw [h]

/-- Witness for C4: the orphan load fails with the parse error attached
to the offending element and the error-time table has no entry under the
redefined name. -/
theorem orphan_redefinition_rejected_witness :
    load_xsd_globals XSD_ELEMENT_TAG [] [c4_schema] =
      .error (.notARedefinition "\x7btns\x7dM" ⟨XSD_ELEMENT_TAG, "M", 0⟩, []) ∧
    List.lookup "\x7btns\x7dM" ([] : Table) = none :=
  orphan_redefinition_rejected.1 XSD_ELEMENT_TAG [] [c4_schema] []
    "\x7btns\x7dM" ⟨XSD_ELEMENT_TAG, "M", 0⟩ c4_schema [] (by rfl) (by simp) (by rfl)

/-- C5: direct top-level declarations accumulate per qualified name —
the first contribution stores a single raw pair, the second converts the
slot to a two-item fan-out list, every further contribution appends to
the list — and redefinition-block children are collected during the scan
but applied only after all schemas are scanned, so a redefinition placed
before its base declaration (here: in an earlier schema) loads exactly
like one placed after it. -/
theorem fanout_accumulation_order :
    (∀ tbl q e s, List.lookup q tbl = none →
      slotAppend tbl q e s = tset tbl q (.pair e s)) ∧
    (∀ tbl q e s e' s', List.lookup q tbl = some (.pair e' s') →
      slotAppend tbl q e s = tset tbl q (.list [.pair e' s', .pair e s])) ∧
    (∀ tbl q e s l, List.lookup q tbl = some (.list l) →
      slotAppend tbl q e s = tset tbl q (.list (l ++ [.pair e s]))) ∧
    (∀ (t tns nm : String) (c₁ c₂ i j : Nat) (u u' : Option String),
      load_xsd_globals t []
          [⟨i, u, tns, [.redefine [⟨t, nm, c₁⟩]]⟩, ⟨j, u', tns, [.decl ⟨t, nm, c₂⟩]⟩] =
        .ok [(get_qname tns nm,
          .list [.pair ⟨t, nm, c₂⟩ ⟨j, u', tns, [.decl ⟨t, nm, c₂⟩]⟩,
                 .pair ⟨t, nm, c₁⟩ ⟨i, u, tns, [.redefine [⟨t, nm, c₁⟩]]⟩])] ∧
      load_xsd_globals t []
          [⟨j, u', tns, [.decl ⟨t, nm, c₂⟩]⟩, ⟨i, u, tns, [.redefine [⟨t, nm, c₁⟩]]⟩] =
        .ok [(get_qname tns nm,
          .list [.pair ⟨t, nm, c₂⟩ ⟨j, u', tns, [.decl ⟨t, nm, c₂⟩]⟩,
                 .pair ⟨t, nm, c₁⟩ ⟨i, u, tns, [.redefine [⟨t, nm, c₁⟩]]⟩])]) := by
  refine ⟨?_, ?_, ?_, ?_⟩
  · intro tbl q e s h
    unfold slotAppend
    rw [h]
  · intro tbl q e s e' s' h
    unfold slotAppend
    rw [h]
  · intro tbl q e s l h
    unfold slotAppend
    rw [h]
  · intro t tns nm c₁ c₂ i j u u'
    constructor <;>
      simp [load_xsd_globals, schemaDecls, schemaRedefs, iterchildren_by_tag,
        slotAppend, applyRedefs, tset, List.lookup]

/-- Witness for C5: the accumulation steps and both load orders at a
concrete name. -/
theorem fanout_accumulation_order_witness :
    slotAppend [] "q" ⟨"t", "q", 0⟩ ⟨1, none, "", []⟩ =
      [("q", .pair ⟨"t", "q", 0⟩ ⟨1, none, "", []⟩)] ∧
    slotAppend [("q", .pair ⟨"t", "q", 0⟩ ⟨1, none, "", []⟩)] "q" ⟨"t", "q", 1⟩
        ⟨2, none, "", []⟩ =
      [("q", .list [.pair ⟨"t", "q", 0⟩ ⟨1, none, "", []⟩,
                    .pair ⟨"t", "q", 1⟩ ⟨2, none, "", []⟩])] ∧
    load_xsd_globals "t" []
        [⟨1, none, "ns", [.redefine [⟨"t", "q", 0⟩]]⟩, ⟨2, none, "ns", [.decl ⟨"t", "q", 1⟩]⟩] =
      .ok [(get_qname "ns" "q",
        .list [.pair ⟨"t", "q", 1⟩ ⟨2, none, "ns", [.decl ⟨"t", "q", 1⟩]⟩,
               .pair ⟨"t", "q", 0⟩ ⟨1, none, "ns", [.redefine [⟨"t", "q", 0⟩]]⟩])] := by
  refine ⟨?_, ?_, ?_⟩
  · exact fanout_accumulation_order.1 [] "q" ⟨"t", "q", 0⟩ ⟨1, none, "", []⟩ (by rfl)
  · exact (fanout_accumulation_order.2.1 _ "q" ⟨"t", "q", 1⟩ ⟨2, none, "", []⟩
      ⟨"t", "q", 0⟩ ⟨1, none, "", []⟩ (by rfl)).trans (by rfl)
  · exact (fanout_accumulation_order.2.2.2 "t" "ns" "q" 0 1 1 2 none none).1

/-! ### C10: the frame of clear -/

theorem errReset_preserve (l : List Schema) (k : Nat) :
    ∀ e : List (Nat × List Nat), List.lookup k e = some [] →
      List.lookup k (l.foldl (fun a s => tset a s.sid []) e) = some [] := by
  induction l with
  | nil => intro e h; exact h
  | cons s' rest ih =>
    intro e h
    by_cases hs : s'.sid = k
    · subst hs
      exact ih _ (lookup_tset_eq _ _ _)
    · exact ih _ (by rw [lookup_tset_ne _ _ _ _ (Ne.symm hs)]; exact h)

theorem errReset_mem (l : List Schema) (s : Schema) (hs : s ∈ l) :
    ∀ e : List (Nat × List Nat),
      List.lookup s.sid (l.foldl (fun a s => tset a s.sid []) e) = some [] := by
  induction l with
  | nil => simp at hs
  | cons s' rest ih =>
    intro e
    rcases List.mem_cons.mp hs with h | h
    · subst h
      rw [List.foldl_cons]
      exact errReset_preserve _ _ _ (lookup_tset_eq _ _ _)
    · rw [List.foldl_cons]
      exact ih h _

/-- C10: `clear` without the remove-schemas flag empties the six category
tables, the substitution-group table and the base-elements table, resets
every registered schema's error list to empty, and leaves the namespace
and resource registries unchanged; with the flag set the two registries
are replaced by empty ones as well. -/
theorem clear_scope (g : XsdGlobals) :
    (clear g false).notations = [] ∧ (clear g false).types = [] ∧
    (clear g false).attributes = [] ∧ (clear g false).attribute_groups = [] ∧
    (clear g false).groups = [] ∧ (clear g false).elements = [] ∧
    (clear g false).substitution_groups = [] ∧ (clear g false).base_elements = [] ∧
    (∀ s, s ∈ XsdGlobals.iter_schemas g → schemaErrors (clear g false) s = []) ∧
    (clear g false).namespaces = g.namespaces ∧
    (clear g false).resources = g.resources ∧
    (clear g true).namespaces = [] ∧ (clear g true).resources = [] := by
  refine ⟨by simp [clear], by simp [clear], by simp [clear], by simp [clear],
    by simp [clear], by simp [clear], by simp [clear], by simp [clear],
    ?_, by simp [clear], by simp [clear], by simp [clear], by simp [clear]⟩
  intro s hs
  simp only [clear, if_neg (by simp : ¬ false = true)]
  unfold schemaErrors
  simp only []
  rw [errReset_mem _ _ hs]
  rfl

/-- Witness for C10 at `w10_g`. -/
theorem clear_scope_witness :
    (clear w10_g false).types = [] ∧ schemaErrors (clear w10_g false) w10_schema = [] ∧
    (clear w10_g false).namespaces = w10_g.namespaces ∧
    (clear w10_g true).namespaces = [] :=
  ⟨(clear_scope w10_g).2.1,
   (clear_scope w10_g).2.2.2.2.2.2.2.2.1 w10_schema (by decide),
   (clear_scope w10_g).2.2.2.2.2.2.2.2.2.1,
   (clear_scope w10_g).2.2.2.2.2.2.2.2.2.2.2.1⟩

/-! ### C2: build preconditions -/

/-- C2: `build` fails with a state error — before performing any mutation,
the returned state being exactly the input state — whenever any
registered schema carries errors, any of the six global tables is
non-empty, the substitution-group or base-elements table is non-empty, or
the XSD meta-namespace is not registered. -/
theorem build_precondition_noop (skip : Bool) (opts : Opts) (g : XsdGlobals)
    (h : (∃ s ∈ XsdGlobals.iter_schemas g, schemaErrors g s ≠ []) ∨
         (∃ d ∈ XsdGlobals.global_maps g, d ≠ []) ∨
         g.base_elements ≠ [] ∨ g.substitution_groups ≠ [] ∨
         List.lookup XSD_NAMESPACE_PATH g.namespaces = none) :
    ∃ e, build skip opts g = .error (e, g) := by
  unfold build
  by_cases hc : ((XsdGlobals.iter_schemas g).any (fun s => !(schemaErrors g s).isEmpty) ||
     (XsdGlobals.global_maps g).any (fun d => !d.isEmpty) ||
     !g.base_elements.isEmpty || !g.substitution_groups.isEmpty) = true
  · rw [if_pos hc]
    exact ⟨.notCleared, rfl⟩
  · have hc' := hc
    simp only [Bool.or_eq_true, List.any_eq_true, Bool.not_eq_true', not_or,
      List.isEmpty_eq_false, List.isEmpty_iff, not_exists, not_and, not_not] at hc'
    obtain ⟨⟨⟨h1, h2⟩, h3⟩, h4⟩ := hc'
    rw [if_neg hc]
    have hnone : List.lookup XSD_NAMESPACE_PATH g.namespaces = none := by
      rcases h with ⟨s, hs, hne⟩ | ⟨d, hd, hne⟩ | h | h | h
      · exact absurd (h1 s hs) hne
      · exact absurd (h2 d hd) hne
      · exact absurd h3 h
      · exact absurd h4 h
      · exact h
    rw [hnone]
    exact ⟨.nsNotRegistered, rfl⟩

/-- Witness for C2 at a state with a non-empty types table. -/
theorem build_precondition_noop_witness :
    ∃ e, build false w2_opts w2_g = .error (e, w2_g) :=
  build_precondition_noop false w2_opts w2_g
    (Or.inr (Or.inl ⟨w2_g.types, by decide, by decide⟩))

/-! ### C9: registration idempotence by resource identity -/

/-- C9: on any registry state satisfying the registries' representation
invariant, registering a schema whose resource identity is already known
is a no-op; in particular the target-namespace group's length is
unchanged, a schema being appended to its group only when no schema with
the same identity already occupies it. -/
theorem register_idempotent (g : XsdGlobals) (s : Schema) (u : String)
    (hinv : RegInv g) (hu : s.uri = some u) (hne : u ≠ "")
    (hknown : (List.lookup u g.resources).isSome) :
    register g s = g ∧
    (List.lookup s.targetNamespace (register g s).namespaces).map List.length =
      (List.lookup s.targetNamespace g.namespaces).map List.length := by
  have hmain : register g s = g := by
    obtain ⟨s', hs'⟩ := Option.isSome_iff_exists.mp hknown
    unfold register
    rw [hu]
    simp only [hs', if_pos hne]
    by_cases hss : s' = s
    · subst hss
      simp only [ne_eq, not_true_eq_false, if_neg (by simp : ¬ (False : Prop))]
      obtain ⟨_, _, grp, hgrp, hmem⟩ := hinv.1 (u, s') (mem_of_lookup_eq_some hs')
      rw [hgrp]
      simp [hmem]
    · simp [hss]
  exact ⟨hmain, by rw [hmain]⟩

/-- Witness for C9: re-registering `w9_schema` leaves `w9_g` unchanged. -/
theorem register_idempotent_witness :
    register w9_g w9_schema = w9_g ∧
    (List.lookup "ns" (register w9_g w9_schema).namespaces).map List.length =
      (List.lookup "ns" w9_g.namespaces).map List.length :=
  register_idempotent w9_g w9_schema "u"
    (by constructor
        · intro p hp
          fin_cases hp
          exact ⟨rfl, by decide, [w9_schema], by decide, by decide⟩
        · intro q hq o ho u hu hne
          fin_cases hq
          fin_cases ho
          cases hu
          rfl)
    rfl (by decide) (by decide)

/-! ### C8: the namespace-filtered view -/

theorem canonical_inj {k1 k2 : String}
    (h1 : get_qname (get_namespace k1) (local_name k1) = k1)
    (h2 : get_qname (get_namespace k2) (local_name k2) = k2)
    (hns : get_namespace k1 = get_namespace k2)
    (hloc : local_name k1 = local_name k2) : k1 = k2 := by
  rw [← h1, ← h2, hns, hloc]

theorem viewFold (nsv : String) (l : List (String × α)) :
    ∀ acc : List (String × α),
      ((l.filter (fun p => nsv = get_namespace p.1)).map (fun p => local_name p.1)).Nodup →
      (∀ x ∈ (l.filter (fun p => nsv = get_namespace p.1)).map (fun p => local_name p.1),
        x ∉ acc.map Prod.fst) →
      l.foldl (fun a p => if nsv = get_namespace p.1 then tset a (local_name p.1) p.2 else a)
          acc =
        acc ++ (l.filter (fun p => nsv = get_namespace p.1)).map
          (fun p => (local_name p.1, p.2)) := by
  induction l with
  | nil => intro acc _ _; simp
  | cons p rest ih =>
    intro acc h1 h2
    by_cases hp : nsv = get_namespace p.1
    · rw [List.foldl_cons, if_pos hp]
      rw [List.filter_cons_of_pos (by simpa using hp)] at h1 h2 ⊢
      simp only [List.map_cons, List.nodup_cons] at h1
      have hfresh : local_name p.1 ∉ acc.map Prod.fst :=
        h2 _ (by simp)
      rw [tset_fresh _ _ _ hfresh]
      rw [ih (acc ++ [(local_name p.1, p.2)]) h1.2 ?_]
      · simp
      · intro x hx
        simp only [List.map_append, List.mem_append, List.map_cons]
        rintro (hmem | hmem)
        · exact h2 x (List.mem_cons_of_mem _ hx) hmem
        · simp at hmem
          exact h1.1 (hmem ▸ hx)
    · rw [List.foldl_cons, if_neg hp]
      rw [List.filter_cons_of_neg (by simpa using hp)] at h1 h2 ⊢
      exact ih acc h1 h2

/-- C8: over a backing table with duplicate-free, canonically formed keys
the namespace view over `U` holds exactly the entries whose key's
namespace equals `U`, under both fully-qualified and local-name
enumeration; item lookup and membership promote the local name to the
namespace's qualified form before probing the backing table; length and
iteration agree with the filtered snapshot. -/
theorem namespace_view_equiv (v : NamespaceView α)
    (hnodup : (v.target_dict.map Prod.fst).Nodup)
    (hcanon : ∀ k ∈ v.target_dict.map Prod.fst,
      get_qname (get_namespace k) (local_name k) = k) :
    (∀ k x, (k, x) ∈ v.as_dict_fqn ↔ ((k, x) ∈ v.target_dict ∧ get_namespace k = v.ns)) ∧
    v.as_dict = v.as_dict_fqn.map (fun p => (local_name p.1, p.2)) ∧
    (∀ k, v.getItem k = List.lookup (get_qname v.ns k) v.target_dict) ∧
    (∀ k, v.containsKey k = (List.lookup (get_qname v.ns k) v.target_dict).isSome) ∧
    v.len = v.as_dict_fqn.length ∧
    v.iterKeys = v.as_dict_fqn.map (fun p => local_name p.1) := by
  have hmain : v.as_dict = v.as_dict_fqn.map (fun p => (local_name p.1, p.2)) := by
    have hsub : ((v.target_dict.filter (fun p => v.ns = get_namespace p.1)).map
        Prod.fst).Sublist (v.target_dict.map Prod.fst) :=
      (List.filter_sublist v.target_dict).map Prod.fst
    have hknodup := hnodup.sublist hsub
    have hfl : ((v.target_dict.filter (fun p => v.ns = get_namespace p.1)).map
        (fun p => local_name p.1)).Nodup := by
      have hcomp : (v.target_dict.filter (fun p => v.ns = get_namespace p.1)).map
          (fun p => local_name p.1) =
          ((v.target_dict.filter (fun p => v.ns = get_namespace p.1)).map
            Prod.fst).map local_name := by
        simp [List.map_map]
      rw [hcomp]
      refine hknodup.map_on ?_
      intro x hx y hy hxy
      have hxk : x ∈ v.target_dict.map Prod.fst := hsub.mem hx
      have hyk : y ∈ v.target_dict.map Prod.fst := hsub.mem hy
      have hxns : get_namespace x = v.ns := by
        obtain ⟨p, hp, rfl⟩ := List.mem_map.mp hx
        have h' := List.of_mem_filter hp
        simp only [decide_eq_true_eq] at h'
        exact h'.symm
      have hyns : get_namespace y = v.ns := by
        obtain ⟨p, hp, rfl⟩ := List.mem_map.mp hy
        have h' := List.of_mem_filter hp
        simp only [decide_eq_true_eq] at h'
        exact h'.symm
      exact canonical_inj (hcanon x hxk) (hcanon y hyk) (hxns.trans hyns.symm) hxy
    unfold NamespaceView.as_dict NamespaceView.as_dict_fqn
    rw [viewFold v.ns v.target_dict [] hfl (by intro x _ hx; simp at hx)]
    simp
  refine ⟨?_, hmain, fun k => rfl, fun k => rfl, ?_, ?_⟩
  · intro k x
    unfold NamespaceView.as_dict_fqn
    simp [List.mem_filter, eq_comm, and_comm]
  · unfold NamespaceView.len
    rw [hmain]
    simp
  · unfold NamespaceView.iterKeys
    rw [hmain]
    simp

/-- Witness for C8 at `w8_view`. -/
theorem namespace_view_equiv_witness :
    w8_view.as_dict = w8_view.as_dict_fqn.map (fun p => (local_name p.1, p.2)) ∧
    (("\x7bU\x7da", 1) ∈ w8_view.as_dict_fqn ↔
      (("\x7bU\x7da", 1) ∈ w8_view.target_dict ∧ get_namespace "\x7bU\x7da" = w8_view.ns)) :=
  ⟨(namespace_view_equiv w8_view (by decide) (by decide)).2.1,
   (namespace_view_equiv w8_view (by decide) (by decide)).1 "\x7bU\x7da" 1⟩

/-! ### C7: substitution-group closure -/


set_option maxHeartbeats 4000000 in
/-- Inversion of a successful build: the final substitution-group table
is the result of the substitution pass over the final elements table,
started from the empty table the preconditions require. -/
theorem build_ok_subst (skip : Bool) (opts : Opts) (g g' : XsdGlobals)
    (h : build skip opts g = .ok g') :
    substPass g'.elements [] = .ok g'.substitution_groups := by
  unfold build at h
  split at h
  case isTrue hpre => exact Except.noConfusion h
  case isFalse hpre =>
  have hpre' := hpre
  simp only [Bool.or_eq_true, not_or, List.any_eq_true, Bool.not_eq_true',
    List.isEmpty_eq_false, List.isEmpty_iff, not_not, ne_eq, not_exists, not_and] at hpre'
  have hsub0 : g.substitution_groups = [] := hpre'.2
  clear hpre hpre'
  repeat' (first
    | (split at h <;> try exact Except.noConfusion h)
    | (dsimp only [] at h))
  all_goals injection h with h'
  all_goals subst h'
  all_goals simp only [hsub0, apply_ite XsdGlobals.substitution_groups, ite_self] at *
  all_goals assumption

theorem sgAdd_mem (sg : List (QName × List Component)) (n : QName) (c : Component) :
    c ∈ (List.lookup n (sgAdd sg n c)).getD [] := by
  unfold sgAdd
  cases hl : List.lookup n sg with
  | none => simp [lookup_tset_eq]
  | some s =>
    by_cases hc : c ∈ s
    · simp [lookup_tset_eq, hc]
    · simp [lookup_tset_eq, hc]

theorem sgAdd_mono (sg : List (QName × List Component)) (n' : QName) (c' : Component)
    (n : QName) (c : Component) (h : c ∈ (List.lookup n sg).getD []) :
    c ∈ (List.lookup n (sgAdd sg n' c')).getD [] := by
  unfold sgAdd
  by_cases hnn : n = n'
  · subst hnn
    cases hl : List.lookup n sg with
    | none => rw [hl] at h; simp at h
    | some s =>
      rw [hl] at h
      simp only [Option.getD_some] at h
      by_cases hc : c' ∈ s
      · simp [hl, lookup_tset_eq, hc, h]
      · simp only [hl, lookup_tset_eq, hc, if_neg hc, Option.getD_some]
        exact List.mem_append_left _ h
  · cases hl : List.lookup n' sg with
    | none => simpa [lookup_tset_ne _ _ _ _ hnn] using h
    | some s => simpa [lookup_tset_ne _ _ _ _ hnn] using h

theorem substPass_mono (l : List (QName × Slot)) :
    ∀ sg sg', substPass l sg = .ok sg' →
      ∀ n c, c ∈ (List.lookup n sg).getD [] → c ∈ (List.lookup n sg').getD [] := by
  induction l with
  | nil =>
    intro sg sg' h n c hc
    unfold substPass at h
    cases h
    exact hc
  | cons p rest ih =>
    intro sg sg' h n c hc
    rcases p with ⟨q, slot⟩
    cases slot with
    | comp c0 =>
      unfold substPass at h
      cases hsub : c0.core.substitutionGroup with
      | none => simp only [hsub] at h; exact ih _ _ h n c hc
      | some r =>
        simp only [hsub] at h
        by_cases hr : r = ""
        · rw [if_pos hr] at h; exact ih _ _ h n c hc
        · rw [if_neg hr] at h
          exact ih _ _ h n c (sgAdd_mono _ _ _ _ _ hc)
    | pair e s => unfold substPass at h; exact Except.noConfusion h
    | list il => unfold substPass at h; exact Except.noConfusion h

theorem substPass_mem (l : List (QName × Slot)) :
    ∀ sg sg', substPass l sg = .ok sg' →
      ∀ q c r, (q, Slot.comp c) ∈ l → c.core.substitutionGroup = some r → r ≠ "" →
        c ∈ (List.lookup (substName c.core r) sg').getD [] := by
  induction l with
  | nil => intro sg sg' _ q c r hmem; simp at hmem
  | cons p rest ih =>
    intro sg sg' h q c r hmem hr hne
    rcases List.mem_cons.mp hmem with hp | hp
    · subst hp
      unfold substPass at h
      simp only [hr, if_neg hne] at h
      exact substPass_mono rest _ _ h _ _ (sgAdd_mem _ _ _)
    · rcases p with ⟨q', slot⟩
      cases slot with
      | comp c0 =>
        unfold substPass at h
        cases hsub : c0.core.substitutionGroup with
        | none => simp only [hsub] at h; exact ih _ _ h q c r hp hr hne
        | some r' =>
          simp only [hsub] at h
          by_cases hr' : r' = ""
          · rw [if_pos hr'] at h; exact ih _ _ h q c r hp hr hne
          · rw [if_neg hr'] at h; exact ih _ _ h q c r hp hr hne
      | pair e s => unfold substPass at h; exact Except.noConfusion h
      | list il => unfold substPass at h; exact Except.noConfusion h

/-- C7: after a successful `build`, every element in the elements table
declaring a truthy substitution-group head reference is a member of the
substitution set stored under the head's qualified name — the reference
resolved against the element's namespace map and, when unprefixed,
expanded with the element's own target namespace (`substName`); the set
is created on first membership by `sgAdd`. -/
theorem build_substitution_closure (skip : Bool) (opts : Opts) (g g' : XsdGlobals)
    (q : QName) (c : Component) (r : String)
    (hb : build skip opts g = .ok g')
    (hq : List.lookup q g'.elements = some (.comp c))
    (hr : c.core.substitutionGroup = some r) (hne : r ≠ "") :
    c ∈ (List.lookup (substName c.core r) g'.substitution_groups).getD [] := by
  have hsp := build_ok_subst skip opts g g' hb
  exact substPass_mem _ _ _ hsp q c r (mem_of_lookup_eq_some hq) hr hne

/-- Witness for C7: the concrete build places `w7_elemC` into the
substitution set of `\x7bnsA\x7dhead`. -/
theorem build_substitution_closure_witness :
    w7_elemC ∈ (List.lookup (substName w7_elemC.core "head")
      w7_out.substitution_groups).getD [] :=
  build_substitution_closure true w7_opts w7_g w7_out "\x7bnsA\x7dE" w7_elemC "head"
    (by rfl) (by rfl) rfl (by decide)

/-! ### C6: registration order and the built tables -/

/-- The loader's nested per-schema fold equals one fold over the
flattened contribution sequence. -/
theorem foldl_slotAppend_flat (t : String) (ss : List Schema) :
    ∀ init : Table,
      ss.foldl (fun acc s => (schemaDecls t s).foldl
        (fun a e => slotAppend a (get_qname s.targetNamespace e.nm) e s) acc) init =
      (loadContribs t ss).foldl (fun a p => slotAppend a p.1 p.2.1 p.2.2) init := by
  induction ss with
  | nil => intro init; simp [loadContribs]
  | cons s rest ih =>
    intro init
    rw [List.foldl_cons, ih]
    unfold loadContribs
    rw [List.flatMap_cons, List.foldl_append, List.foldl_map]

/-- The scan phase of a load run with no redefine blocks: the table is
the contribution fold and no redefinitions are pending. -/
theorem load_scan (t : String) (ss : List Schema)
    (hno : ∀ s ∈ ss, schemaRedefs t s = []) :
    ∀ init : Table,
      ss.foldl (fun (acc : Table × List (QName × Elem × Schema)) (s : Schema) =>
        ((schemaDecls t s).foldl
          (fun a e => slotAppend a (get_qname s.targetNamespace e.nm) e s) acc.1,
         acc.2 ++ (schemaRedefs t s).map (fun c => (get_qname s.targetNamespace c.nm, c, s))))
        (init, []) =
      ((loadContribs t ss).foldl (fun a p => slotAppend a p.1 p.2.1 p.2.2) init, []) := by
  induction ss with
  | nil => intro init; simp [loadContribs]
  | cons s rest ih =>
    intro init
    rw [List.foldl_cons]
    have h0 : schemaRedefs t s = [] := hno s (by simp)
    rw [h0]
    simp only [List.map_nil, List.append_nil]
    rw [ih (fun s hs => hno s (List.mem_cons_of_mem _ hs))]
    unfold loadContribs
    rw [List.flatMap_cons, List.foldl_append, List.foldl_map]

/-- A load run over schemas without redefine blocks succeeds and equals
the contribution fold. -/
theorem load_eq_fold (t : String) (ss : List Schema) (init : Table)
    (hno : ∀ s ∈ ss, schemaRedefs t s = []) :
    load_xsd_globals t init ss =
      .ok ((loadContribs t ss).foldl (fun a p => slotAppend a p.1 p.2.1 p.2.2) init) := by
  unfold load_xsd_globals
  dsimp only []
  rw [load_scan t ss hno init]
  rfl

/-- Per-key view of the accumulation fold: a name's final slot depends
only on the subsequence of contributions carrying that name. -/
theorem lookup_foldl_slotAppend (cs : List (QName × Elem × Schema)) :
    ∀ (init : Table) (q : QName),
      List.lookup q (cs.foldl (fun a p => slotAppend a p.1 p.2.1 p.2.2) init) =
        (cs.filter (fun p => p.1 = q)).foldl
          (fun s p => some (slotStep s p.2.1 p.2.2)) (List.lookup q init) := by
  induction cs with
  | nil => intro init q; rfl
  | cons p rest ih =>
    intro init q
    rw [List.foldl_cons]
    by_cases hq : p.1 = q
    · rw [List.filter_cons_of_pos (by simpa using hq)]
      rw [List.foldl_cons, ih]
      congr 1
      rw [slotAppend_eq_tset, hq, lookup_tset_eq]
    · rw [List.filter_cons_of_neg (by simpa using hq)]
      rw [ih]
      congr 1
      rw [slotAppend_eq_tset, lookup_tset_ne _ _ _ _ (fun hh => hq hh.symm)]

/-- Under duplicate-free contribution names, at most one contribution
carries any given name. -/
theorem filter_len_le_one (cs : List (QName × Elem × Schema))
    (hnd : (cs.map Prod.fst).Nodup) (q : QName) :
    (cs.filter (fun p => p.1 = q)).length ≤ 1 := by
  induction cs with
  | nil => simp
  | cons p rest ih =>
    simp only [List.map_cons, List.nodup_cons] at hnd
    by_cases hq : p.1 = q
    · rw [List.filter_cons_of_pos (by simpa using hq)]
      have : rest.filter (fun p => p.1 = q) = [] := by
        rw [List.filter_eq_nil_iff]
        intro a ha
        simp only [decide_eq_true_eq]
        intro haq
        refine hnd.1 ?_
        rw [hq, ← haq]
        exact List.mem_map_of_mem Prod.fst ha
      simp [this]
    · rw [List.filter_cons_of_neg (by simpa using hq)]
      exact ih hnd.2

/-- Permuted contribution sequences with duplicate-free names select
identical per-name subsequences. -/
theorem filter_key_eq_of_perm_nodup (cs1 cs2 : List (QName × Elem × Schema))
    (hperm : cs1.Perm cs2) (hnd : (cs1.map Prod.fst).Nodup) (q : QName) :
    cs1.filter (fun p => p.1 = q) = cs2.filter (fun p => p.1 = q) := by
  have hp := hperm.filter (fun p => decide (p.1 = q))
  have hlen := filter_len_le_one cs1 hnd q
  cases hf : cs1.filter (fun p => p.1 = q) with
  | nil =>
    rw [hf] at hp
    exact (List.perm_nil.mp hp.symm).symm
  | cons a tl =>
    cases tl with
    | nil =>
      rw [hf] at hp
      exact (List.perm_singleton.mp hp.symm).symm
    | cons b tl2 =>
      rw [hf] at hlen
      simp at hlen

/-- Dict assignment preserves duplicate-free keys. -/
theorem tset_keys_nodup [DecidableEq κ] (t : List (κ × α)) (k : κ) (v : α)
    (h : (t.map Prod.fst).Nodup) : ((tset t k v).map Prod.fst).Nodup := by
  by_cases hk : k ∈ t.map Prod.fst
  · rw [tset_keys _ _ _ hk]; exact h
  · rw [tset_fresh _ _ _ hk]
    simp only [List.map_append, List.map_cons, List.map_nil]
    exact List.Nodup.append h (by simp) (by simpa [List.disjoint_right] using hk)

/-- The accumulation fold preserves duplicate-free keys. -/
theorem foldl_slotAppend_keys_nodup (cs : List (QName × Elem × Schema)) :
    ∀ init : Table, (init.map Prod.fst).Nodup →
      (((cs.foldl (fun a p => slotAppend a p.1 p.2.1 p.2.2) init)).map Prod.fst).Nodup := by
  induction cs with
  | nil => intro init h; exact h
  | cons p rest ih =>
    intro init h
    rw [List.foldl_cons]
    refine ih _ ?_
    rw [slotAppend_eq_tset]
    exact tset_keys_nodup _ _ _ h

/-- `dict.update` preserves duplicate-free keys. -/
theorem dictUpdate_keys_nodup [DecidableEq κ] (entries : List (κ × α)) :
    ∀ t : List (κ × α), (t.map Prod.fst).Nodup →
      ((dictUpdate t entries).map Prod.fst).Nodup := by
  induction entries with
  | nil => intro t h; exact h
  | cons p rest ih =>
    intro t h
    unfold dictUpdate at *
    rw [List.foldl_cons]
    exact ih _ (tset_keys_nodup _ _ _ h)

/-- Anchor attachment preserves duplicate-free keys. -/
theorem setAnchor_keys_nodup (tbl : Table) (q : QName) (m : Schema) (out : Table)
    (h : setAnchor tbl q m = .ok out) (hnd : (tbl.map Prod.fst).Nodup) :
    (out.map Prod.fst).Nodup := by
  unfold setAnchor at h
  cases hl : List.lookup q tbl with
  | none => rw [hl] at h; exact Except.noConfusion h
  | some sl =>
    rw [hl] at h
    cases sl with
    | comp c => cases h; exact tset_keys_nodup _ _ _ hnd
    | pair e s => exact Except.noConfusion h
    | list l => exact Except.noConfusion h

/-- A successful redefinition pass preserves duplicate-free keys. -/
theorem applyRedefs_keys_nodup (rs : List (QName × Elem × Schema)) :
    ∀ tbl tbl', applyRedefs tbl rs = .ok tbl' → (tbl.map Prod.fst).Nodup →
      (tbl'.map Prod.fst).Nodup := by
  induction rs with
  | nil =>
    intro tbl tbl' h hnd
    unfold applyRedefs at h
    cases h
    exact hnd
  | cons r rest ih =>
    intro tbl tbl' h hnd
    rcases r with ⟨q₁, e₁, s₁⟩
    unfold applyRedefs at h
    by_cases hk : (List.lookup q₁ tbl).isSome
    · rw [if_pos hk] at h
      refine ih _ _ h ?_
      rw [slotAppend_eq_tset]
      exact tset_keys_nodup _ _ _ hnd
    · rw [if_neg hk] at h
      exact Except.noConfusion h

/-- Per-key view of a successful redefinition pass: a name's final slot
is the `slotStep` fold of the pending entries carrying that name over
its previous slot. -/
theorem applyRedefs_ok_lookup (rs : List (QName × Elem × Schema)) :
    ∀ (tbl tbl' : Table), applyRedefs tbl rs = .ok tbl' → ∀ q : QName,
      List.lookup q tbl' =
        (rs.filter (fun p => p.1 = q)).foldl
          (fun s p => some (slotStep s p.2.1 p.2.2)) (List.lookup q tbl) := by
  induction rs with
  | nil =>
    intro tbl tbl' h q
    unfold applyRedefs at h
    cases h
    rfl
  | cons r rest ih =>
    intro tbl tbl' h q
    rcases r with ⟨q₁, e₁, s₁⟩
    unfold applyRedefs at h
    by_cases hk : (List.lookup q₁ tbl).isSome
    · rw [if_pos hk] at h
      rw [ih _ _ h q]
      by_cases hq : q₁ = q
      · subst hq
        rw [List.filter_cons_of_pos (by simp), List.foldl_cons]
        congr 1
        rw [slotAppend_eq_tset, lookup_tset_eq]
      · rw [List.filter_cons_of_neg (by simpa using hq)]
        congr 1
        rw [slotAppend_eq_tset, lookup_tset_ne _ _ _ _ (fun hh => hq hh.symm)]
    · rw [if_neg hk] at h
      exact Except.noConfusion h

/-- Filtering a flattened map is flattening the per-block filters. -/
theorem filter_flatMap {α β : Type} (l : List α) (f : α → List β) (p : β → Bool) :
    (l.flatMap f).filter p = (l.map (fun a => (f a).filter p)).flatten := by
  induction l with
  | nil => rfl
  | cons a rest ih =>
    rw [List.flatMap_cons, List.filter_append, ih, List.map_cons, List.flatten_cons]

/-- Permuted lists of blocks of which at most one is nonempty have equal
flattenings. -/
theorem flatten_perm_of_subsingleton {α : Type} {l1 l2 : List (List α)} (h : l1.Perm l2) :
    (l1.filter (fun l => !l.isEmpty)).length ≤ 1 → l1.flatten = l2.flatten := by
  induction h with
  | nil => intro _; rfl
  | cons x h ih =>
    intro hs
    rw [List.flatten_cons, List.flatten_cons]
    congr 1
    refine ih (le_trans ?_ hs)
    rw [List.filter_cons]
    by_cases hx : (!x.isEmpty) = true
    · rw [if_pos hx, List.length_cons]
      exact Nat.le_succ _
    · rw [if_neg hx]
  | swap x y l =>
    intro hs
    rw [List.flatten_cons, List.flatten_cons, List.flatten_cons, List.flatten_cons]
    cases x with
    | nil => rfl
    | cons a xs =>
      cases y with
      | nil => rfl
      | cons b ys =>
        exfalso
        rw [List.filter_cons_of_pos (by rfl), List.filter_cons_of_pos (by rfl)] at hs
        simp only [List.length_cons] at hs
        omega
  | trans h1 h2 ih1 ih2 =>
    intro hs
    rw [ih1 hs]
    refine ih2 ?_
    rw [← (h1.filter (fun l => !l.isEmpty)).length_eq]
    exact hs

/-- Per-block filtering cannot increase the number of nonempty blocks. -/
theorem filter_isEmpty_map_le {α : Type} (p : α → Bool) (L : List (List α)) :
    ((L.map (List.filter p)).filter (fun l => !l.isEmpty)).length ≤
      (L.filter (fun l => !l.isEmpty)).length := by
  induction L with
  | nil => exact le_refl _
  | cons l rest ih =>
    rw [List.map_cons, List.filter_cons, List.filter_cons]
    by_cases hl : (!(List.filter p l).isEmpty) = true
    · have hl2 : (!l.isEmpty) = true := by
        cases l with
        | nil =>
          rw [List.filter_nil] at hl
          exact absurd hl (by simp)
        | cons a as => rfl
      rw [if_pos hl, if_pos hl2, List.length_cons, List.length_cons]
      exact Nat.succ_le_succ ih
    · rw [if_neg hl]
      refine le_trans ih ?_
      by_cases hl2 : (!l.isEmpty) = true
      · rw [if_pos hl2, List.length_cons]
        exact Nat.le_succ _
      · rw [if_neg hl2]

/-- At most one schema carrying redefine blocks for the category at all
is enough for `singleRedefBlock`. -/
theorem singleRedefBlock_of_blocks (t : String) (ss : List Schema)
    (h : ((ss.map (fun s => (schemaRedefs t s).map
        (fun c => (get_qname s.targetNamespace c.nm, c, s)))).filter
      (fun l => !l.isEmpty)).length ≤ 1) :
    singleRedefBlock t ss := by
  intro q
  have h2 := filter_isEmpty_map_le (fun p => p.1 = q)
    (ss.map (fun s => (schemaRedefs t s).map
      (fun c => (get_qname s.targetNamespace c.nm, c, s))))
  rw [List.map_map] at h2
  exact le_trans h2 h

/-- Under `singleRedefBlock`, permuted schema sequences select identical
per-name pending-redefinition subsequences. -/
theorem redefContribs_filter_perm (t : String) (ss1 ss2 : List Schema)
    (hperm : ss1.Perm ss2) (hsr : singleRedefBlock t ss1) (q : QName) :
    (redefContribs t ss1).filter (fun p => p.1 = q) =
      (redefContribs t ss2).filter (fun p => p.1 = q) := by
  unfold redefContribs
  rw [filter_flatMap, filter_flatMap]
  exact flatten_perm_of_subsingleton (hperm.map _) (hsr q)

/-- A successful load run preserves duplicate-free keys: the declaration
fold and the redefinition pass both only `tset`. -/
theorem load_keys_nodup (t : String) (ss : List Schema) (init out : Table)
    (h : load_xsd_globals t init ss = .ok out)
    (hnd : (init.map Prod.fst).Nodup) : (out.map Prod.fst).Nodup := by
  rw [load_eq_apply] at h
  exact applyRedefs_keys_nodup _ _ _ h (foldl_slotAppend_keys_nodup _ _ hnd)

/-- The resolve loop leaves names outside its key list untouched and
rewrites each listed name's slot through `slotResolveT` applied to its
previous slot. -/
theorem resolveKeys_char (xc : XsdClasses) (kw : Kwargs) (keys : List QName) :
    ∀ tbl tbl', resolveKeys xc kw tbl keys = .ok tbl' → keys.Nodup →
      (∀ q, q ∉ keys → List.lookup q tbl' = List.lookup q tbl) ∧
      (∀ q ∈ keys, ∃ slot c slot' tr, List.lookup q tbl = some slot ∧
        slotResolveT xc kw slot = .ok (c, slot', tr) ∧
        List.lookup q tbl' = some slot') := by
  induction keys with
  | nil =>
    intro tbl tbl' h _
    unfold resolveKeys at h
    cases h
    exact ⟨fun q _ => rfl, fun q hq => absurd hq (by simp)⟩
  | cons k rest ih =>
    intro tbl tbl' h hnd
    unfold resolveKeys at h
    cases hlk : lookup xc kw tbl k with
    | error et => rw [hlk] at h; exact Except.noConfusion h
    | ok res =>
      rw [hlk] at h
      rcases res with ⟨c, tbl₁, tr⟩
      dsimp only [] at h
      unfold lookup at hlk
      cases hsl : List.lookup k tbl with
      | none => rw [hsl] at hlk; exact Except.noConfusion hlk
      | some slot =>
        rw [hsl] at hlk
        dsimp only [] at hlk
        cases hres : slotResolveT xc kw slot with
        | error es =>
          rcases es with ⟨e0, s0⟩
          rw [hres] at hlk
          exact Except.noConfusion hlk
        | ok out =>
          rcases out with ⟨c', slot', tr'⟩
          rw [hres] at hlk
          cases hlk
          simp only [List.nodup_cons] at hnd
          obtain ⟨hout, hin⟩ := ih _ _ h hnd.2
          constructor
          · intro q hq
            simp only [List.mem_cons, not_or] at hq
            rw [hout q hq.2, lookup_tset_ne _ _ _ _ hq.1]
          · intro q hq
            rcases List.mem_cons.mp hq with hq | hq
            · subst hq
              refine ⟨slot, c, slot', tr, hsl, hres, ?_⟩
              rw [hout q hnd.1, lookup_tset_eq]
            · obtain ⟨s0, c0, s0', tr0, h1, h2, h3⟩ := hin q hq
              refine ⟨s0, c0, s0', tr0, ?_, h2, h3⟩
              rw [← h1, lookup_tset_ne _ _ _ _ (fun hh => hnd.1 (by rw [← hh]; exact hq))]

set_option maxHeartbeats 4000000 in
/-- Inversion of a successful build: the input tables were empty and the
final six category tables arise from the seeding, load, resolve and
materialize phases chained in source order. -/
theorem build_ok_chain (skip : Bool) (opts : Opts) (g g' : XsdGlobals)
    (h : build skip opts g = .ok g') :
    g.types = [] ∧ g.attributes = [] ∧ g.attribute_groups = [] ∧ g.groups = [] ∧
    g.notations = [] ∧ g.elements = [] ∧
    ∃ meta rest t₁ t₂ t₃ ln ls la lag lc le lg rn ra rag rt re rg mn mt ma mag mg me,
      List.lookup XSD_NAMESPACE_PATH g.namespaces = some (meta :: rest) ∧
      setAnchor (dictUpdate g.types (opts.BUILTIN_TYPES.map (fun p => (p.1, Slot.comp p.2))))
        XSD_ANY_TYPE meta = .ok t₁ ∧
      setAnchor t₁ XSD_ANY_SIMPLE_TYPE meta = .ok t₂ ∧
      setAnchor t₂ XSD_ANY_ATOMIC_TYPE meta = .ok t₃ ∧
      load_xsd_globals XSD_NOTATION_TAG g.notations (XsdGlobals.iter_schemas g) = .ok ln ∧
      load_xsd_globals XSD_SIMPLE_TYPE_TAG t₃ (XsdGlobals.iter_schemas g) = .ok ls ∧
      load_xsd_globals XSD_ATTRIBUTE_TAG g.attributes (XsdGlobals.iter_schemas g) = .ok la ∧
      load_xsd_globals XSD_ATTRIBUTE_GROUP_TAG g.attribute_groups
        (XsdGlobals.iter_schemas g) = .ok lag ∧
      load_xsd_globals XSD_COMPLEX_TYPE_TAG ls (XsdGlobals.iter_schemas g) = .ok lc ∧
      load_xsd_globals XSD_ELEMENT_TAG g.elements (XsdGlobals.iter_schemas g) = .ok le ∧
      load_xsd_globals XSD_GROUP_TAG g.groups (XsdGlobals.iter_schemas g) = .ok lg ∧
      resolveTable (.single XsdNotationCI) opts.factories ln = .ok rn ∧
      resolveTable (.single XsdAttributeCI) opts.factories la = .ok ra ∧
      resolveTable (.single XsdAttributeGroupCI) opts.factories lag = .ok rag ∧
      resolveTable (.multi [XsdSimpleTypeCI, XsdComplexTypeCI]) opts.factories lc = .ok rt ∧
      resolveTable (.single XsdElementCI) opts.factories le = .ok re ∧
      resolveTable (.single XsdGroupCI) opts.factories lg = .ok rg ∧
      materializeTable opts.factories rn = .ok mn ∧
      materializeTable opts.factories rt = .ok mt ∧
      materializeTable opts.factories ra = .ok ma ∧
      materializeTable opts.factories rag = .ok mag ∧
      materializeTable opts.factories rg = .ok mg ∧
      materializeTable opts.factories re = .ok me ∧
      g'.notations = mn ∧ g'.types = mt ∧ g'.attributes = ma ∧
      g'.attribute_groups = mag ∧ g'.groups = mg ∧ g'.elements = me := by
  unfold build at h
  split at h
  case isTrue hpre => exact Except.noConfusion h
  case isFalse hpre =>
  have hpre' := hpre
  simp only [Bool.or_eq_true, not_or, List.any_eq_true, Bool.not_eq_true',
    List.isEmpty_eq_false, List.isEmpty_iff, not_not, ne_eq, not_exists, not_and,
    XsdGlobals.global_maps, List.mem_cons, forall_eq_or_imp, List.not_mem_nil,
    false_implies, and_true, List.mem_singleton, forall_eq] at hpre'
  obtain ⟨⟨⟨herr, hn, ht, hat, hag, hgr, hel, -⟩, hbe⟩, hsg⟩ := hpre'
  refine ⟨ht, hat, hag, hgr, hn, hel, ?_⟩
  repeat' (first
    | (split at h <;> try exact Except.noConfusion h)
    | (dsimp only [] at h))
  all_goals injection h with h'
  all_goals subst h'
  all_goals simp only [XsdGlobals.iter_schemas, apply_ite XsdGlobals.namespaces,
    apply_ite XsdGlobals.notations, apply_ite XsdGlobals.types,
    apply_ite XsdGlobals.attributes, apply_ite XsdGlobals.attribute_groups,
    apply_ite XsdGlobals.groups, apply_ite XsdGlobals.elements, ite_self] at *
  all_goals exact ⟨_, _, _, _, _, _, _, _, _, _, _, _, _, _, _, _, _, _, _, _, _, _, _, _,
    ‹_›, ‹_›, ‹_›, ‹_›, ‹_›, ‹_›, ‹_›, ‹_›, ‹_›, ‹_›, ‹_›, ‹_›, ‹_›, ‹_›, ‹_›, ‹_›, ‹_›,
    ‹_›, ‹_›, ‹_›, ‹_›, ‹_›, ‹_›, rfl, rfl, rfl, rfl, rfl, rfl⟩

/-- A successful lookup witnesses key membership. -/
theorem lookup_some_mem_keys [DecidableEq κ] {t : List (κ × α)} {k : κ} {v : α}
    (h : List.lookup k t = some v) : k ∈ t.map Prod.fst :=
  List.mem_map_of_mem Prod.fst (mem_of_lookup_eq_some h)

/-- Forced resolution sends map-equivalent tables with duplicate-free
keys to map-equivalent tables. -/
theorem resolveTable_pointwise (xc : XsdClasses) (kw : Kwargs) (t1 t2 o1 o2 : Table)
    (h1 : resolveTable xc kw t1 = .ok o1) (h2 : resolveTable xc kw t2 = .ok o2)
    (hnd1 : (t1.map Prod.fst).Nodup) (hnd2 : (t2.map Prod.fst).Nodup)
    (heq : tablesEquiv t1 t2) : tablesEquiv o1 o2 := by
  intro q
  have c1 := resolveKeys_char xc kw (t1.map Prod.fst) t1 o1 h1 hnd1
  have c2 := resolveKeys_char xc kw (t2.map Prod.fst) t2 o2 h2 hnd2
  cases hq : List.lookup q t1 with
  | none =>
    have hq2 : List.lookup q t2 = none := (heq q).symm.trans hq
    have hn1 : q ∉ t1.map Prod.fst := fun hmem => by
      have := lookup_isSome_of_mem_keys t1 q hmem
      rw [hq] at this
      exact Bool.noConfusion this
    have hn2 : q ∉ t2.map Prod.fst := fun hmem => by
      have := lookup_isSome_of_mem_keys t2 q hmem
      rw [hq2] at this
      exact Bool.noConfusion this
    rw [c1.1 q hn1, c2.1 q hn2, hq, hq2]
  | some slot =>
    have hq2 : List.lookup q t2 = some slot := (heq q).symm.trans hq
    obtain ⟨s1, ca, sa, tra, he1, he2, he3⟩ := c1.2 q (lookup_some_mem_keys hq)
    obtain ⟨s2, cb, sb, trb, hf1, hf2, hf3⟩ := c2.2 q (lookup_some_mem_keys hq2)
    rw [hq] at he1
    rw [hq2] at hf1
    cases he1
    cases hf1
    rw [he2] at hf2
    injection hf2 with hf2
    rw [he3, hf3]
    cases hf2
    rfl

/-- Phase 5 rewrites each component slot through `materializeComp` and
nothing else. -/
theorem materializeTable_char (kw : Kwargs) :
    ∀ (tbl out : Table), materializeTable kw tbl = .ok out →
      ∀ q, match List.lookup q tbl with
        | none => List.lookup q out = none
        | some (.comp c) =>
          ∃ c', materializeComp kw c = .ok c' ∧ List.lookup q out = some (.comp c')
        | some _ => False := by
  intro tbl
  induction tbl with
  | nil =>
    intro out h q
    unfold materializeTable at h
    cases h
    simp [List.lookup]
  | cons p rest ih =>
    intro out h q
    rcases p with ⟨k, slot⟩
    cases slot with
    | comp c =>
      unfold materializeTable at h
      cases hmc : materializeComp kw c with
      | error e => rw [hmc] at h; exact Except.noConfusion h
      | ok c' =>
        rw [hmc] at h
        cases hrest : materializeTable kw rest with
        | error e => rw [hrest] at h; exact Except.noConfusion h
        | ok out' =>
          rw [hrest] at h
          dsimp only [Except.map] at h
          cases h
          by_cases hk : q = k
          · subst hk
            rw [lookup_cons, if_pos rfl, lookup_cons, if_pos rfl]
            exact ⟨c', hmc, rfl⟩
          · rw [lookup_cons, if_neg hk, lookup_cons, if_neg hk]
            exact ih out' hrest q
    | pair e s => unfold materializeTable at h; exact Except.noConfusion h
    | list l => unfold materializeTable at h; exact Except.noConfusion h

/-- Phase 5 sends map-equivalent tables to map-equivalent tables. -/
theorem materializeTable_pointwise (kw : Kwargs) (t1 t2 o1 o2 : Table)
    (h1 : materializeTable kw t1 = .ok o1) (h2 : materializeTable kw t2 = .ok o2)
    (heq : tablesEquiv t1 t2) : tablesEquiv o1 o2 := by
  intro q
  have c1 := materializeTable_char kw t1 o1 h1 q
  have c2 := materializeTable_char kw t2 o2 h2 q
  rw [heq q] at c1
  cases hq : List.lookup q t2 with
  | none =>
    rw [hq] at c1 c2
    dsimp only [] at c1 c2
    rw [c1, c2]
  | some slot =>
    rw [hq] at c1 c2
    cases slot with
    | comp c =>
      dsimp only [] at c1 c2
      obtain ⟨ca, hca, hla⟩ := c1
      obtain ⟨cb, hcb, hlb⟩ := c2
      rw [hca] at hcb
      injection hcb with hcb
      rw [hla, hlb, hcb]
    | pair e s => dsimp only [] at c1
    | list l => dsimp only [] at c1

/-- Loads over permuted schema sequences with duplicate-free declaration
contribution names and single-schema per-name redefinitions send
map-equivalent initial tables to map-equivalent results. -/
theorem load_pointwise (t : String) (ss1 ss2 : List Schema) (i1 i2 o1 o2 : Table)
    (h1 : load_xsd_globals t i1 ss1 = .ok o1) (h2 : load_xsd_globals t i2 ss2 = .ok o2)
    (hperm : ss1.Perm ss2)
    (hnd : ((loadContribs t ss1).map Prod.fst).Nodup)
    (hsr : singleRedefBlock t ss1)
    (hinit : tablesEquiv i1 i2) : tablesEquiv o1 o2 := by
  rw [load_eq_apply] at h1 h2
  intro q
  rw [applyRedefs_ok_lookup _ _ _ h1 q, applyRedefs_ok_lookup _ _ _ h2 q,
    lookup_foldl_slotAppend, lookup_foldl_slotAppend,
    filter_key_eq_of_perm_nodup (loadContribs t ss1) (loadContribs t ss2)
      (List.Perm.flatMap_right _ hperm) hnd q,
    hinit q,
    redefContribs_filter_perm t ss1 ss2 hperm hsr q]

/-- C6 (amended): two successful builds over registration orders
admitting the same schemas produce map-equivalent category tables,
provided the XSD-namespace group resolves to the same schema sequence
(fixing the meta-schema choice the counterexample exploits), every
category's declaration contribution names are duplicate-free (ruling out
the ambiguous-declaration tie-breaks the claim itself excepts), and each
name's redefine-block contributions come from at most one schema (ruling
out the analogous cross-schema redefinition-order tie-breaks; a single
schema may redefine a name repeatedly, its document order being fixed). -/
theorem registration_order_tables_agree
    (skipA skipB : Bool) (opts : Opts) (gA gB gA' gB' : XsdGlobals)
    (hA : build skipA opts gA = .ok gA') (hB : build skipB opts gB = .ok gB')
    (hperm : (XsdGlobals.iter_schemas gA).Perm (XsdGlobals.iter_schemas gB))
    (hxsd : List.lookup XSD_NAMESPACE_PATH gA.namespaces =
      List.lookup XSD_NAMESPACE_PATH gB.namespaces)
    (hsr : ∀ t ∈ [XSD_NOTATION_TAG, XSD_SIMPLE_TYPE_TAG, XSD_ATTRIBUTE_TAG,
        XSD_ATTRIBUTE_GROUP_TAG, XSD_COMPLEX_TYPE_TAG, XSD_ELEMENT_TAG, XSD_GROUP_TAG],
      singleRedefBlock t (XsdGlobals.iter_schemas gA))
    (hnd : ∀ t ∈ [XSD_NOTATION_TAG, XSD_SIMPLE_TYPE_TAG, XSD_ATTRIBUTE_TAG,
        XSD_ATTRIBUTE_GROUP_TAG, XSD_COMPLEX_TYPE_TAG, XSD_ELEMENT_TAG, XSD_GROUP_TAG],
      ((loadContribs t (XsdGlobals.iter_schemas gA)).map Prod.fst).Nodup) :
    tablesEquiv gA'.notations gB'.notations ∧ tablesEquiv gA'.types gB'.types ∧
    tablesEquiv gA'.attributes gB'.attributes ∧
    tablesEquiv gA'.attribute_groups gB'.attribute_groups ∧
    tablesEquiv gA'.groups gB'.groups ∧ tablesEquiv gA'.elements gB'.elements := by
  obtain ⟨htyA, hatA, hagA, hgrA, hnoA, helA, metaA, restA, t1A, t2A, t3A,
    lnA, lsA, laA, lagA, lcA, leA, lgA, rnA, raA, ragA, rtA, reA, rgA,
    mnA, mtA, maA, magA, mgA, meA, hMA, hA1, hA2, hA3,
    hLnA, hLsA, hLaA, hLagA, hLcA, hLeA, hLgA,
    hRnA, hRaA, hRagA, hRtA, hReA, hRgA,
    hMnA, hMtA, hMaA, hMagA, hMgA, hMeA,
    hGnA, hGtA, hGaA, hGagA, hGgA, hGeA⟩ := build_ok_chain skipA opts gA gA' hA
  obtain ⟨htyB, hatB, hagB, hgrB, hnoB, helB, metaB, restB, t1B, t2B, t3B,
    lnB, lsB, laB, lagB, lcB, leB, lgB, rnB, raB, ragB, rtB, reB, rgB,
    mnB, mtB, maB, magB, mgB, meB, hMB, hB1, hB2, hB3,
    hLnB, hLsB, hLaB, hLagB, hLcB, hLeB, hLgB,
    hRnB, hRaB, hRagB, hRtB, hReB, hRgB,
    hMnB, hMtB, hMaB, hMagB, hMgB, hMeB,
    hGnB, hGtB, hGaB, hGagB, hGgB, hGeB⟩ := build_ok_chain skipB opts gB gB' hB
  have hmeta : metaA = metaB := by
    rw [hMA, hMB] at hxsd
    injection hxsd with hx
    injection hx with hx1 hx2
  subst hmeta
  rw [htyA] at hA1
  rw [htyB] at hB1
  rw [hA1] at hB1
  injection hB1 with ht1
  subst ht1
  rw [hA2] at hB2
  injection hB2 with ht2
  subst ht2
  rw [hA3] at hB3
  injection hB3 with ht3
  subst ht3
  rw [hnoA] at hLnA
  rw [hnoB] at hLnB
  rw [hatA] at hLaA
  rw [hatB] at hLaB
  rw [hagA] at hLagA
  rw [hagB] at hLagB
  rw [helA] at hLeA
  rw [helB] at hLeB
  rw [hgrA] at hLgA
  rw [hgrB] at hLgB
  have hndNil : (([] : Table).map Prod.fst).Nodup := by simp
  have hndT3 : (t3A.map Prod.fst).Nodup := by
    refine setAnchor_keys_nodup _ _ _ _ hA3 (setAnchor_keys_nodup _ _ _ _ hA2
      (setAnchor_keys_nodup _ _ _ _ hA1 (dictUpdate_keys_nodup _ _ (by simp))))
  have hiNil : tablesEquiv ([] : Table) ([] : Table) := fun q => rfl
  have eqT3 : tablesEquiv t3A t3A := fun q => rfl
  -- notations
  have eLn := load_pointwise _ _ _ _ _ _ _ hLnA hLnB hperm
    (hnd XSD_NOTATION_TAG (by simp)) (hsr XSD_NOTATION_TAG (by simp)) hiNil
  have ndLnA := load_keys_nodup _ _ _ _ hLnA hndNil
  have ndLnB := load_keys_nodup _ _ _ _ hLnB hndNil
  have eRn := resolveTable_pointwise _ _ _ _ _ _ hRnA hRnB ndLnA ndLnB eLn
  have eMn := materializeTable_pointwise _ _ _ _ _ hMnA hMnB eRn
  -- types: simple then complex loads from the common seeded table
  have eLs := load_pointwise _ _ _ _ _ _ _ hLsA hLsB hperm
    (hnd XSD_SIMPLE_TYPE_TAG (by simp)) (hsr XSD_SIMPLE_TYPE_TAG (by simp)) eqT3
  have ndLsA := load_keys_nodup _ _ _ _ hLsA hndT3
  have ndLsB := load_keys_nodup _ _ _ _ hLsB hndT3
  have eLc := load_pointwise _ _ _ _ _ _ _ hLcA hLcB hperm
    (hnd XSD_COMPLEX_TYPE_TAG (by simp)) (hsr XSD_COMPLEX_TYPE_TAG (by simp)) eLs
  have ndLcA := load_keys_nodup _ _ _ _ hLcA ndLsA
  have ndLcB := load_keys_nodup _ _ _ _ hLcB ndLsB
  have eRt := resolveTable_pointwise _ _ _ _ _ _ hRtA hRtB ndLcA ndLcB eLc
  have eMt := materializeTable_pointwise _ _ _ _ _ hMtA hMtB eRt
  -- attributes
  have eLa := load_pointwise _ _ _ _ _ _ _ hLaA hLaB hperm
    (hnd XSD_ATTRIBUTE_TAG (by simp)) (hsr XSD_ATTRIBUTE_TAG (by simp)) hiNil
  have ndLaA := load_keys_nodup _ _ _ _ hLaA hndNil
  have ndLaB := load_keys_nodup _ _ _ _ hLaB hndNil
  have eRa := resolveTable_pointwise _ _ _ _ _ _ hRaA hRaB ndLaA ndLaB eLa
  have eMa := materializeTable_pointwise _ _ _ _ _ hMaA hMaB eRa
  -- attribute groups
  have eLag := load_pointwise _ _ _ _ _ _ _ hLagA hLagB hperm
    (hnd XSD_ATTRIBUTE_GROUP_TAG (by simp)) (hsr XSD_ATTRIBUTE_GROUP_TAG (by simp)) hiNil
  have ndLagA := load_keys_nodup _ _ _ _ hLagA hndNil
  have ndLagB := load_keys_nodup _ _ _ _ hLagB hndNil
  have eRag := resolveTable_pointwise _ _ _ _ _ _ hRagA hRagB ndLagA ndLagB eLag
  have eMag := materializeTable_pointwise _ _ _ _ _ hMagA hMagB eRag
  -- groups
  have eLg := load_pointwise _ _ _ _ _ _ _ hLgA hLgB hperm
    (hnd XSD_GROUP_TAG (by simp)) (hsr XSD_GROUP_TAG (by simp)) hiNil
  have ndLgA := load_keys_nodup _ _ _ _ hLgA hndNil
  have ndLgB := load_keys_nodup _ _ _ _ hLgB hndNil
  have eRg := resolveTable_pointwise _ _ _ _ _ _ hRgA hRgB ndLgA ndLgB eLg
  have eMg := materializeTable_pointwise _ _ _ _ _ hMgA hMgB eRg
  -- elements
  have eLe := load_pointwise _ _ _ _ _ _ _ hLeA hLeB hperm
    (hnd XSD_ELEMENT_TAG (by simp)) (hsr XSD_ELEMENT_TAG (by simp)) hiNil
  have ndLeA := load_keys_nodup _ _ _ _ hLeA hndNil
  have ndLeB := load_keys_nodup _ _ _ _ hLeB hndNil
  have eRe := resolveTable_pointwise _ _ _ _ _ _ hReA hReB ndLeA ndLeB eLe
  have eMe := materializeTable_pointwise _ _ _ _ _ hMeA hMeB eRe
  rw [hGnA, hGnB, hGtA, hGtB, hGaA, hGaB, hGagA, hGagB, hGgA, hGgB, hGeA, hGeB]
  exact ⟨eMn, eMt, eMa, eMag, eMg, eMe⟩

/-- C6 (counterexample): registering the same two XSD-namespace schemas
in the two orders makes both builds succeed yet yields unequal built
types tables — the anchor types carry the schema the head of the
XSD-namespace group happens to be, so registration order does change the
built graph. -/
theorem registration_order_changes_built_tables :
    build true c6_opts c6_gA = .ok c6_outA ∧
    build true c6_opts c6_gB = .ok c6_outB ∧
    XsdGlobals.iter_schemas c6_gA = [c6_s1, c6_s2] ∧
    XsdGlobals.iter_schemas c6_gB = [c6_s2, c6_s1] ∧
    List.lookup XSD_ANY_TYPE c6_outA.types ≠ List.lookup XSD_ANY_TYPE c6_outB.types :=
  ⟨rfl, rfl, rfl, rfl, by decide⟩

/-- Witness for the amended C6 at two four-schema registration orders
whose schemas include one redefinition of the builtin `anySimpleType`. -/
theorem registration_order_tables_agree_witness :
    List.lookup "\x7bnsA\x7dE" w6_outA.elements = List.lookup "\x7bnsA\x7dE" w6_outB.elements ∧
    List.lookup XSD_ANY_SIMPLE_TYPE w6_outA.types =
      List.lookup XSD_ANY_SIMPLE_TYPE w6_outB.types :=
  have h := registration_order_tables_agree true true w6_opts w6_gA w6_gB w6_outA w6_outB
    (by rfl) (by rfl) (by decide) (by rfl)
    (by intro t ht
        fin_cases ht <;> exact singleRedefBlock_of_blocks _ _ (by decide))
    (by decide)
  ⟨h.2.2.2.2.2 "\x7bnsA\x7dE", h.2.1 XSD_ANY_SIMPLE_TYPE⟩

/-! ### Registry invariant preservation (supporting C9) -/

/-- Members of an updated table are the new binding or old members. -/
theorem mem_tset [DecidableEq κ] {t : List (κ × α)} {k : κ} {v : α} {p : κ × α}
    (h : p ∈ tset t k v) : p = (k, v) ∨ p ∈ t := by
  induction t with
  | nil => simp [tset] at h; exact Or.inl h
  | cons q rest ih =>
    by_cases hq : q.1 = k
    · rw [tset, if_pos hq] at h
      rcases List.mem_cons.mp h with h | h
      · exact Or.inl h
      · exact Or.inr (List.mem_cons_of_mem _ h)
    · rw [tset, if_neg hq] at h
      rcases List.mem_cons.mp h with h | h
      · exact Or.inr (h ▸ List.mem_cons_self _ _)
      · rcases ih h with h | h
        · exact Or.inl h
        · exact Or.inr (List.mem_cons_of_mem _ h)

/-- A member key looks up to something. -/
theorem lookup_isSome_of_mem [DecidableEq κ] {t : List (κ × α)} {k : κ} {v : α}
    (h : (k, v) ∈ t) : (List.lookup k t).isSome :=
  lookup_isSome_of_mem_keys t k (List.mem_map_of_mem Prod.fst h)

/-- A key that looks up to nothing has no binding at all. -/
theorem not_mem_of_lookup_none [DecidableEq κ] {t : List (κ × α)} {k : κ}
    (h : List.lookup k t = none) : ∀ v, (k, v) ∉ t := by
  intro v hm
  have := lookup_isSome_of_mem hm
  rw [h] at this
  exact Bool.noConfusion this

/-- The namespace-group step restores the registries' representation
invariant from the mid-call state: every resource entry is canonical and
is either the schema being registered (whose URI is already bound to it)
or already a member of its group. -/
theorem nsStep_inv (g : XsdGlobals) (s : Schema)
    (hpart1 : ∀ p ∈ g.resources, p.2.uri = some p.1 ∧ p.1 ≠ "" ∧
      (p.2 = s ∨ ∃ grp, List.lookup p.2.targetNamespace g.namespaces = some grp ∧ p.2 ∈ grp))
    (hpart2 : ∀ q ∈ g.namespaces, ∀ o ∈ q.2, ∀ u, o.uri = some u → u ≠ "" →
      List.lookup u g.resources = some o)
    (hres : ∀ u, s.uri = some u → u ≠ "" → List.lookup u g.resources = some s) :
    RegInv (registerNamespace g s) := by
  unfold registerNamespace
  cases hlt : List.lookup s.targetNamespace g.namespaces with
  | none =>
    dsimp only []
    constructor
    · intro p hp
      obtain ⟨hu, hne, hrest⟩ := hpart1 p hp
      refine ⟨hu, hne, ?_⟩
      rcases hrest with hps | ⟨grp, hgrp, hmem⟩
      · refine ⟨[s], ?_, ?_⟩
        · rw [hps, lookup_tset_eq]
        · rw [hps]; simp
      · by_cases htns : p.2.targetNamespace = s.targetNamespace
        · rw [htns] at hgrp; rw [hgrp] at hlt; exact Option.noConfusion hlt
        · exact ⟨grp, by rw [lookup_tset_ne _ _ _ _ htns]; exact hgrp, hmem⟩
    · intro q hq o ho u hu hne
      rcases mem_tset hq with hq | hq
      · subst hq
        simp only [List.mem_singleton] at ho
        subst ho
        exact hres u hu hne
      · exact hpart2 q hq o ho u hu hne
  | some grp =>
    dsimp only []
    by_cases hmem : s ∈ grp
    · rw [if_pos hmem]
      constructor
      · intro p hp
        obtain ⟨hu, hne, hrest⟩ := hpart1 p hp
        refine ⟨hu, hne, ?_⟩
        rcases hrest with hps | hok
        · exact ⟨grp, by rw [hps]; exact hlt, hps ▸ hmem⟩
        · exact hok
      · exact hpart2
    · rw [if_neg hmem]
      by_cases hany : grp.any (fun o => s.uri = o.uri)
      · rw [if_pos hany]
        have hvac : ∀ p ∈ g.resources, p.2 ≠ s := by
          intro p hp hps
          obtain ⟨hu, hne, -⟩ := hpart1 p hp
          rw [hps] at hu
          obtain ⟨o, ho, houri⟩ := List.any_eq_true.mp hany
          simp only [decide_eq_true_eq] at houri
          have := hpart2 (s.targetNamespace, grp) (mem_of_lookup_eq_some hlt) o ho p.1
            (by rw [← houri]; exact hu) hne
          rw [hres p.1 hu hne] at this
          injection this with this
          rw [this] at hmem
          exact hmem ho
        constructor
        · intro p hp
          obtain ⟨hu, hne, hrest⟩ := hpart1 p hp
          refine ⟨hu, hne, ?_⟩
          rcases hrest with hps | hok
          · exact absurd hps (hvac p hp)
          · exact hok
        · exact hpart2
      · rw [if_neg hany]
        constructor
        · intro p hp
          obtain ⟨hu, hne, hrest⟩ := hpart1 p hp
          refine ⟨hu, hne, ?_⟩
          rcases hrest with hps | ⟨grpP, hgrpP, hmemP⟩
          · refine ⟨grp ++ [s], ?_, ?_⟩
            · rw [hps, lookup_tset_eq]
            · rw [hps]; simp
          · by_cases htns : p.2.targetNamespace = s.targetNamespace
            · rw [htns] at hgrpP
              rw [hgrpP] at hlt
              injection hlt with hlt
              refine ⟨grp ++ [s], ?_, ?_⟩
              · rw [htns, lookup_tset_eq]
              · exact List.mem_append_left _ (hlt ▸ hmemP)
            · exact ⟨grpP, by rw [lookup_tset_ne _ _ _ _ htns]; exact hgrpP, hmemP⟩
        · intro q hq o ho u hu hne
          rcases mem_tset hq with hq | hq
          · subst hq
            simp only [] at ho
            rcases List.mem_append.mp ho with ho | ho
            · exact hpart2 (s.targetNamespace, grp) (mem_of_lookup_eq_some hlt) o ho u hu hne
            · simp only [List.mem_singleton] at ho
              subst ho
              exact hres u hu hne
          · exact hpart2 q hq o ho u hu hne

/-- `register` preserves the registries' representation invariant, so
`RegInv` holds in every state reachable through registration. -/
theorem register_RegInv (g : XsdGlobals) (s : Schema) (h : RegInv g) :
    RegInv (register g s) := by
  obtain ⟨h1, h2⟩ := h
  obtain ⟨sid, suri, stns, sroot⟩ := s
  unfold register
  cases suri with
  | none =>
    dsimp only []
    show RegInv (registerNamespace g ⟨sid, none, stns, sroot⟩)
    refine nsStep_inv g _ (fun p hp => ?_) h2 (fun u hsu => ?_)
    · obtain ⟨a, b, c⟩ := h1 p hp
      exact ⟨a, b, Or.inr c⟩
    · exact Option.noConfusion hsu
  | some u =>
    by_cases hne : u ≠ ""
    · simp only [if_pos hne]
      cases hl : List.lookup u g.resources with
      | none =>
        dsimp only []
        show RegInv (registerNamespace
          {g with resources := tset g.resources u ⟨sid, some u, stns, sroot⟩}
          ⟨sid, some u, stns, sroot⟩)
        refine nsStep_inv _ _ (fun p hp => ?_) (fun q hq o ho u' hu' hne' => ?_)
          (fun u' hsu hne' => ?_)
        · rcases mem_tset hp with hp | hp
          · subst hp
            exact ⟨rfl, hne, Or.inl rfl⟩
          · obtain ⟨a, b, c⟩ := h1 p hp
            exact ⟨a, b, Or.inr c⟩
        · have hold := h2 q hq o ho u' hu' hne'
          have hunn : u' ≠ u := by
            intro he
            rw [he, hl] at hold
            exact Option.noConfusion hold
          show List.lookup u' (tset g.resources u ⟨sid, some u, stns, sroot⟩) = some o
          rw [lookup_tset_ne _ _ _ _ hunn]
          exact hold
        · injection hsu with hsu
          subst hsu
          exact lookup_tset_eq _ _ _
      | some s' =>
        by_cases hss : s' = ⟨sid, some u, stns, sroot⟩
        · subst hss
          simp only [ne_eq, not_true_eq_false, decide_False]
          dsimp only []
          show RegInv (registerNamespace g ⟨sid, some u, stns, sroot⟩)
          refine nsStep_inv g _ (fun p hp => ?_) h2 (fun u' hsu hne' => ?_)
          · obtain ⟨a, b, c⟩ := h1 p hp
            exact ⟨a, b, Or.inr c⟩
          · injection hsu with hsu
            subst hsu
            exact hl
        · simp only [ne_eq, hss, not_false_eq_true, decide_True, if_true]
          exact ⟨h1, h2⟩
    · simp only [if_neg hne]
      show RegInv (registerNamespace g ⟨sid, some u, stns, sroot⟩)
      refine nsStep_inv g _ (fun p hp => ?_) h2 (fun u' hsu hne' => ?_)
      · obtain ⟨a, b, c⟩ := h1 p hp
        exact ⟨a, b, Or.inr c⟩
      · injection hsu with hsu
        subst hsu
        exact absurd hne' (by simpa using hne)

/-- A fresh `XsdGlobals` satisfies the representation invariant. -/
theorem initGlobals_RegInv (v : String) : RegInv (initGlobals v) :=
  ⟨fun p hp => absurd hp (by simp [initGlobals]), fun q hq => absurd hq (by simp [initGlobals])⟩

/-- `clear` preserves the representation invariant with either flag. -/
theorem clear_RegInv (g : XsdGlobals) (b : Bool) (h : RegInv g) : RegInv (clear g b) := by
  obtain ⟨h1, h2⟩ := h
  unfold clear
  cases b with
  | true =>
    exact ⟨fun p hp => absurd hp (by simp), fun q hq => absurd hq (by simp)⟩
  | false =>
    exact ⟨h1, h2⟩

/-- A successful `build` leaves the two registries untouched and hence
preserves the representation invariant. -/
theorem build_RegInv (skip : Bool) (opts : Opts) (g g' : XsdGlobals)
    (h : build skip opts g = .ok g') (hinv : RegInv g) : RegInv g' := by
  have hns : g'.namespaces = g.namespaces ∧ g'.resources = g.resources := by
    unfold build at h
    split at h
    case isTrue hpre => exact Except.noConfusion h
    case isFalse hpre =>
    repeat' (first
      | (split at h <;> try exact Except.noConfusion h)
      | (dsimp only [] at h))
    all_goals injection h with h'
    all_goals subst h'
    all_goals exact ⟨by simp [apply_ite XsdGlobals.namespaces, ite_self],
      by simp [apply_ite XsdGlobals.resources, ite_self]⟩
  obtain ⟨ha, hb⟩ := hns
  obtain ⟨h1, h2⟩ := hinv
  exact ⟨fun p hp => by rw [ha]; exact h1 p (hb ▸ hp), fun q hq o ho u hu hne => by
    rw [hb]; exact h2 q (ha ▸ hq) o ho u hu hne⟩
